import Mathlib

/-!
# Verification development for `plugins/mg5mes/heft/check_sa.cpp` and `examples/mainMuIC.cc`

The first part embeds the stand-alone matrix-element checker (`proc_string`, `run_proc`),
the second part the event loop and the kinematic reconstruction formulas of `mainMuIC.cc`.

Conventions of the embedding:
* a `vector<int>` is a `List Int`, a `set<int>` is a `Finset Int` whose iteration order
  (`begin()` to `end()`) is the ascending one, `Finset.sort (· ≤ ·)`;
* a `std::stringstream` / `cout` is the `String` written so far;
* vector sizes are assumed to fit the `unsigned int` loop counters of the source
  (fewer than `2^32` entries), so the counters are natural numbers that never wrap.
-/

namespace CheckSA

/-! ## `proc_string` (check_sa.cpp, lines 15-40) -/

/-- First loop of `proc_string`:
`for (unsigned int i = 0; i < in_pdgs.size(); i++) ss << in_pdgs[i] << " ";`. -/
def inLoop (in_pdgs : List Int) (ss : String) : String :=
  (List.range in_pdgs.length).foldl
    (fun ss i => ss ++ toString (in_pdgs.getD i 0) ++ " ") ss

/-- Iterator loop of `proc_string` over the required s-channels:
`for (it = req_s_channels.begin(); it != req_s_channels.end(); ++it) ss << *it << " ";`. -/
def chanLoop (req_s_channels : Finset Int) (ss : String) : String :=
  (req_s_channels.sort (· ≤ ·)).foldl (fun ss x => ss ++ toString x ++ " ") ss

/-- Last loop of `proc_string`:
`for (i = 0; i < out_pdgs.size(); i++) { ss << out_pdgs[i]; if (i != out_pdgs.size() - 1) ss << " "; }`.
The body only runs when `out_pdgs` is not empty, so `size() - 1` does not wrap there. -/
def outLoop (out_pdgs : List Int) (ss : String) : String :=
  (List.range out_pdgs.length).foldl
    (fun ss i =>
      let ss := ss ++ toString (out_pdgs.getD i 0)
      if i ≠ out_pdgs.length - 1 then ss ++ " " else ss) ss

/-- The function `proc_string(in_pdgs, out_pdgs, req_s_channels)`. -/
def proc_string (in_pdgs out_pdgs : List Int) (req_s_channels : Finset Int) : String :=
  let ss := ""
  let ss := inLoop in_pdgs ss
  let ss := if req_s_channels.card > 0 then chanLoop req_s_channels (ss ++ "> ") else ss
  let ss := ss ++ "> "
  outLoop out_pdgs ss

/-- Declarative rendering of a process, written after the description of `proc_string`:
every incoming code followed by a space, then (only for a non-empty set) `"> "` and every
required s-channel in ascending order followed by a space, then `"> "`, then the outgoing
codes separated by single spaces. -/
def procStringSpec (in_pdgs out_pdgs : List Int) (req_s_channels : Finset Int) : String :=
  String.join (in_pdgs.map (fun x => toString x ++ " "))
    ++ (if req_s_channels.Nonempty then
          "> " ++ String.join ((req_s_channels.sort (· ≤ ·)).map (fun x => toString x ++ " "))
        else "")
    ++ "> "
    ++ " ".intercalate (out_pdgs.map toString)

/-! ## `run_proc` (check_sa.cpp, lines 42-138)

`run_proc` talks to three collaborators that are not part of the checked file: the accessor
(`getProcess`, `calculateME`), the process object (`getMasses`) and RAMBO (`get_momenta`).
They are parameters of the embedding.  Each of them is called at most once in a run of
`run_proc`, so a function from the arguments of the call to its result describes it.
A run is recorded as the list of its observable actions, in program order. -/

/-- The collaborators of `run_proc`.  `Q` is the type of a non-null `PY8ME*`, `M` the type
of the mass vector returned by `getMasses`, `D` the type `double`.  `sci prec d` is the text
that `cout << setiosflags(ios::scientific) << setprecision(prec) << d` produces for `d`
before padding. -/
structure Collaborators (Q M D : Type) where
  /-- Result of `accessor.getProcess(in_pdgs, out_pdgs, req_s_channels)`; `none` is `NULL`. -/
  getProcess : List Int → List Int → Finset Int → Option Q
  /-- Result of `query->getMasses()`. -/
  getMasses : Q → M
  /-- Result of `get_momenta(ninitial, energy, masses, weight)`: a `vector<double*>`,
  each pointer being an array of doubles. -/
  get_momenta : Nat → D → M → List (List D)
  /-- Result of `accessor.calculateME(in_pdgs, out_pdgs, p_vec, req_s_channels, colors,
  helicities)`: the `pair<double, bool>`. -/
  calculateME :
    List Int → List Int → List (List D) → Finset Int → List Int → List Int → D × Bool
  /-- Scientific rendering of a double with the given precision. -/
  sci : Nat → D → String

/-- Observable actions of a run of `run_proc`. -/
inductive Action (Q M D : Type) where
  /-- Text inserted into `cout`. -/
  | print (text : String)
  /-- The call `accessor.getProcess(in_pdgs, out_pdgs, req_s_channels)`. -/
  | callGetProcess (in_pdgs out_pdgs : List Int) (req_s_channels : Finset Int)
  /-- The dereference `query->getMasses()`. -/
  | derefQuery (query : Q)
  /-- The call `get_momenta(ninitial, energy, masses, weight)`. -/
  | callGetMomenta (ninitial : Nat) (energy : D) (masses : M)
  /-- The call `accessor.calculateME(...)` with its six arguments. -/
  | callCalculateME (in_pdgs out_pdgs : List Int) (p_vec : List (List D))
      (req_s_channels : Finset Int) (colors helicities : List Int)

namespace Action

variable {Q M D : Type}

/-- Text that an action sends to `cout` (nothing for a call). -/
def printed : Action Q M D → String
  | print text => text
  | _ => ""

/-- Whether the action is a call of `get_momenta`. -/
def isGetMomenta : Action Q M D → Bool
  | callGetMomenta _ _ _ => true
  | _ => false

/-- Whether the action is a call of `calculateME`. -/
def isCalculateME : Action Q M D → Bool
  | callCalculateME _ _ _ _ _ _ => true
  | _ => false

/-- Whether the action dereferences the query pointer. -/
def isDeref : Action Q M D → Bool
  | derefQuery _ => true
  | _ => false

end Action

/-- Everything written to `cout` during a run, as one string. -/
def stdout {Q M D : Type} (trace : List (Action Q M D)) : String :=
  String.join (trace.map Action.printed)

/-- The manipulator `setw(w)` applied to the next item: the text is right-justified in a
field of `w` characters, padded with spaces on the left; longer text is not truncated. -/
def setw (w : Nat) (text : String) : String :=
  String.mk (List.replicate (w - text.length) ' ') ++ text

/-- Inner loop of the copy (lines 83-90): `for (j = 0; j < 4; j++) p_vec[i][j] = p[i][j];`
on row `i`.  A read `p[i]` or `p[i][j]` outside the data returned by `get_momenta`, or a
write outside the row, is undefined behaviour and yields `none`. -/
def copyRow {D : Type} (p : List (List D)) (i : Nat) (row : List D) : Option (List D) :=
  (List.range 4).foldlM
    (fun row j => do
      let pi ← p[i]?
      let x ← pi[j]?
      if j < row.length then pure (row.set j x) else none) row

/-- Outer loop of the copy (lines 81-91), over `i < in_pdgs.size() + out_pdgs.size()`. -/
def copyMomenta {D : Type} (n : Nat) (p : List (List D)) (p_vec : List (List D)) :
    Option (List (List D)) :=
  (List.range n).foldlM
    (fun p_vec i => do
      let row ← p_vec[i]?
      let row ← copyRow p i row
      pure (p_vec.set i row)) p_vec

/-- One line of the momentum table (lines 124-132) for the leg with index `i`. -/
def momentumLine {Q M D : Type} [NatCast D] (c : Collaborators Q M D)
    (p_vec : List (List D)) (i : Nat) : String :=
  let row := p_vec.getD i []
  " | " ++ setw 4 (toString (i + 1))
    ++ setw 22 (c.sci 14 (row.getD 0 ((0 : Nat) : D)))
    ++ setw 22 (c.sci 14 (row.getD 1 ((0 : Nat) : D)))
    ++ setw 22 (c.sci 14 (row.getD 2 ((0 : Nat) : D)))
    ++ setw 22 (c.sci 14 (row.getD 3 ((0 : Nat) : D))) ++ "\n"

/-- The momenta `p_vec` that `run_proc` holds after the copy loop for the process object
`q` (lines 65-91): `none` when the loop leaves the data returned by `get_momenta`. -/
def castMomenta {Q M D : Type} [NatCast D] (c : Collaborators Q M D)
    (in_pdgs out_pdgs : List Int) (q : Q) : Option (List (List D)) :=
  let n := in_pdgs.length + out_pdgs.length
  copyMomenta n (c.get_momenta in_pdgs.length ((1500 : Nat) : D) (c.getMasses q))
    (List.replicate n (List.replicate 4 ((0 : Nat) : D)))

/-- The function `run_proc(accessor, in_pdgs, out_pdgs, req_s_channels)`: the list of its
actions, or `none` when the copy loop leaves the data returned by `get_momenta`.  The release
loop (lines 93-97) touches the same pointers `p[i]` as the copy loop and has no observable
action; the output parameter `weight` is never read.  The exponent
`-(2 * int(n) - 8)` of the last line is an `int` that does not overflow for fewer than
`2^30` legs. -/
def run_proc {Q M D : Type} [NatCast D] (c : Collaborators Q M D)
    (in_pdgs out_pdgs : List Int) (req_s_channels : Finset Int) :
    Option (List (Action Q M D)) :=
  let query := c.getProcess in_pdgs out_pdgs req_s_channels
  let trace : List (Action Q M D) :=
    [Action.callGetProcess in_pdgs out_pdgs req_s_channels,
     Action.print " -> Process '",
     Action.print (proc_string in_pdgs out_pdgs req_s_channels), Action.print "'"]
  match query with
  | none => some (trace ++ [Action.print " is not available.", Action.print "\n"])
  | some q =>
    let trace := trace ++ [Action.print " is available.", Action.print "\n"]
    let energy : D := ((1500 : Nat) : D)
    let n := in_pdgs.length + out_pdgs.length
    let p_vec : List (List D) := List.replicate n (List.replicate 4 ((0 : Nat) : D))
    let masses := c.getMasses q
    let p := c.get_momenta in_pdgs.length energy masses
    let trace := trace ++
      [Action.derefQuery q, Action.callGetMomenta in_pdgs.length energy masses]
    match copyMomenta n p p_vec with
    | none => none
    | some p_vec =>
      let colors : List Int := []
      let helicities : List Int := []
      let res := c.calculateME in_pdgs out_pdgs p_vec req_s_channels colors helicities
      let trace := trace ++
        [Action.callCalculateME in_pdgs out_pdgs p_vec req_s_channels colors helicities]
      if !res.2 then
        some (trace ++ [Action.print " | Its evaluation failed.", Action.print "\n"])
      else
        let trace := trace ++ [Action.print " | Momenta:", Action.print "\n"]
        let trace := (List.range n).foldl
          (fun trace i => trace ++ [Action.print (momentumLine c p_vec i)]) trace
        let trace := trace ++
          [Action.print " | Matrix element : ", Action.print (c.sci 17 res.1)]
        some (trace ++
          [Action.print " GeV^", Action.print (toString (-(2 * (n : Int) - 8))),
           Action.print "\n"])

/-- A small concrete collaborator set used to exercise `run_proc`: only `h > g g` style
processes starting from the code `25` are known, RAMBO hands back `ninitial + 2` momenta. -/
def demo (ok : Bool) : Collaborators Unit Unit Int where
  getProcess := fun in_pdgs _ _ => if in_pdgs = [25] then some () else none
  getMasses := fun _ => ()
  get_momenta := fun n _ _ => List.replicate (n + 2) [1, 2, 3, 4, 5]
  calculateME := fun _ _ _ _ _ _ => (7, ok)
  sci := fun _ d => toString d

end CheckSA

/-! # `mainMuIC.cc`

The kinematic quantities are embedded over the real numbers, the arithmetic in which the
reconstruction formulas are exact; the event loop is embedded as a list of steps. -/

namespace MuIC

noncomputable section

/-- Modelled from the spec: the four-vector class `Vec4` of `Pythia8/Basics.h`, which is not
under src.  It stores the components `xx, yy, zz` of the momentum and the energy `tt`; the
four-vector written `(E, px, py, pz)` in the description is `⟨px, py, pz, E⟩` here. -/
structure Vec4 where
  /-- Component `px`. -/
  xx : ℝ
  /-- Component `py`. -/
  yy : ℝ
  /-- Component `pz`. -/
  zz : ℝ
  /-- Energy `e`. -/
  tt : ℝ

namespace Vec4

/-- Modelled from the spec: the accessor `Vec4::e()` (not under src), the energy. -/
def e (v : Vec4) : ℝ := v.tt

/-- Modelled from the spec: `operator-` on `Vec4` (not under src), componentwise. -/
def sub (a b : Vec4) : Vec4 := ⟨a.xx - b.xx, a.yy - b.yy, a.zz - b.zz, a.tt - b.tt⟩

/-- Modelled from the spec: `operator+` on `Vec4` (not under src), componentwise. -/
def add (a b : Vec4) : Vec4 := ⟨a.xx + b.xx, a.yy + b.yy, a.zz + b.zz, a.tt + b.tt⟩

/-- Modelled from the spec: `operator*` of two `Vec4` (not under src), the Minkowski
product. -/
def dot (a b : Vec4) : ℝ := a.tt * b.tt - a.xx * b.xx - a.yy * b.yy - a.zz * b.zz

/-- Modelled from the spec: `Vec4::m2Calc()` (not under src), the invariant mass squared
`e^2 - px^2 - py^2 - pz^2`. -/
def m2Calc (v : Vec4) : ℝ := v.tt * v.tt - v.xx * v.xx - v.yy * v.yy - v.zz * v.zz

/-- Modelled from the spec: `Vec4::pAbs()` (not under src), the magnitude of the
three-momentum. -/
def pAbs (v : Vec4) : ℝ := Real.sqrt (v.xx * v.xx + v.yy * v.yy + v.zz * v.zz)

/-- Modelled from the spec: `Vec4::pT()` (not under src), the transverse momentum. -/
def pT (v : Vec4) : ℝ := Real.sqrt (v.xx * v.xx + v.yy * v.yy)

/-- Modelled from the spec: `Vec4::theta()` (not under src), the polar angle
`atan2(sqrt(px^2 + py^2), pz)`; `atan2(b, a)` is the argument of the complex number
`a + b i`. -/
def theta (v : Vec4) : ℝ := Complex.arg ⟨v.zz, Real.sqrt (v.xx * v.xx + v.yy * v.yy)⟩

end Vec4

/-! ## Beam constants (lines 29-40) -/

/-- Constant `eProton` (line 30). -/
def eProton : ℝ := 275
/-- Constant `eMuon` (line 31). -/
def eMuon : ℝ := 960
/-- Constant `mProton` (line 34). -/
def mProton : ℝ := 0.938272
/-- Constant `pProton` (line 35). -/
def pProton : ℝ := Real.sqrt (eProton * eProton - mProton * mProton)
/-- Constant `mMuon` (line 36). -/
def mMuon : ℝ := 0.105658
/-- Constant `pMuon` (line 37). -/
def pMuon : ℝ := Real.sqrt (eMuon * eMuon - mMuon * mMuon)
/-- Constant `roots` (line 38), the centre-of-mass energy. -/
def roots : ℝ :=
  Real.sqrt ((eMuon + eProton) * (eMuon + eProton) - (pMuon - pProton) * (pMuon - pProton))

/-! ## Generator-level invariants (lines 313-319) -/

/-- Line 313: `pPhoton = peIn - peOut`. -/
def pPhoton (peIn peOut : Vec4) : Vec4 := peIn.sub peOut

/-- Line 316: `Q2 = - pPhoton.m2Calc()`. -/
def Q2 (peIn peOut : Vec4) : ℝ := -(pPhoton peIn peOut).m2Calc

/-- Line 317: `W2 = (pProton + pPhoton).m2Calc()`. -/
def W2 (pProton peIn peOut : Vec4) : ℝ := (pProton.add (pPhoton peIn peOut)).m2Calc

/-- Line 318: `x = Q2 / (2. * pProton * pPhoton)`. -/
def x (pProton peIn peOut : Vec4) : ℝ :=
  Q2 peIn peOut / (2 * pProton.dot (pPhoton peIn peOut))

/-- Line 319: `y = (pProton * pPhoton) / (pProton * peIn)`. -/
def y (pProton peIn peOut : Vec4) : ℝ :=
  pProton.dot (pPhoton peIn peOut) / pProton.dot peIn

/-! ## Electron method (lines 321-323)

The formulas are first given on the three numbers they read, `peIn.e()`, `peOut.e()` and
`peOut.theta()`, then on the four-vectors. -/

/-- Line 321 on numbers:
`4.*peIn.e()*peOut.e()*cos(peOut.theta()/2.)*cos(peOut.theta()/2.)`. -/
def Q2recOf (eIn eOut theta : ℝ) : ℝ :=
  4 * eIn * eOut * Real.cos (theta / 2) * Real.cos (theta / 2)

/-- Line 322 on numbers: `1-peOut.e()*(1-cos(peOut.theta()))/2./peIn.e()`. -/
def yrecOf (eIn eOut theta : ℝ) : ℝ :=
  1 - eOut * (1 - Real.cos theta) / 2 / eIn

/-- Line 323: `xrec = Q2rec/roots/roots/yrec`. -/
def xrecOf (Q2rec yrec : ℝ) : ℝ := Q2rec / roots / roots / yrec

/-- Line 321: `Q2rec`. -/
def Q2rec (peIn peOut : Vec4) : ℝ := Q2recOf peIn.e peOut.e peOut.theta

/-- Line 322: `yrec`. -/
def yrec (peIn peOut : Vec4) : ℝ := yrecOf peIn.e peOut.e peOut.theta

/-- Line 323: `xrec`. -/
def xrec (peIn peOut : Vec4) : ℝ := xrecOf (Q2rec peIn peOut) (yrec peIn peOut)

/-! ## Hadronic methods (lines 473-485) -/

/-- Line 473: `sumPt2 = sumPx*sumPx+sumPy*sumPy`. -/
def sumPt2 (sumPx sumPy : ℝ) : ℝ := sumPx * sumPx + sumPy * sumPy

/-- Line 474: `yjb = sumEPz/2.0/peIn.e()`. -/
def yjb (sumEPz eIn : ℝ) : ℝ := sumEPz / 2 / eIn

/-- Line 475: `Q2jb = sumPt2/(1-yjb)`. -/
def Q2jb (sumPt2 yjb : ℝ) : ℝ := sumPt2 / (1 - yjb)

/-- Line 476: `xjb = Q2jb/yjb/roots/roots`. -/
def xjb (Q2jb yjb : ℝ) : ℝ := Q2jb / yjb / roots / roots

/-- Line 477: `agljb = acos((sumPt2-sumEPz*sumEPz)/(sumPt2+sumEPz*sumEPz))`.  `Real.arccos`
agrees with `acos` on `[-1, 1]`, where the argument lies whenever the quotient is defined. -/
def agljb (sumPt2 sumEPz : ℝ) : ℝ :=
  Real.arccos ((sumPt2 - sumEPz * sumEPz) / (sumPt2 + sumEPz * sumEPz))

/-- Line 478: `Q2DA`. -/
def Q2DA (eIn agljb muThetaSmear : ℝ) : ℝ :=
  4 * eIn * eIn * Real.sin agljb * (Real.cos muThetaSmear + 1) /
    (Real.sin agljb + Real.sin muThetaSmear - Real.sin (agljb + muThetaSmear))

/-- Line 479: `yDA`. -/
def yDA (agljb muThetaSmear : ℝ) : ℝ :=
  Real.sin muThetaSmear * (1 - Real.cos agljb) /
    (Real.sin agljb + Real.sin muThetaSmear - Real.sin (agljb + muThetaSmear))

/-- Line 480: `xDA = Q2DA/yDA/roots/roots`. -/
def xDA (Q2DA yDA : ℝ) : ℝ := Q2DA / yDA / roots / roots

/-- Line 483: `yA4`. -/
def yA4 (muESmear eIn sumPt2 agljb : ℝ) : ℝ :=
  (muESmear - eIn) / (muESmear + Real.sqrt sumPt2 / Real.sin agljb - 2 * eIn)

/-- Line 484: `Q2A4`. -/
def Q2A4 (muESmear eIn sumPt2 agljb : ℝ) : ℝ :=
  4 * eIn * eIn * (eIn - Real.sqrt sumPt2 / Real.sin agljb) /
      (muESmear + Real.sqrt sumPt2 / Real.sin agljb - 2 * eIn)
    + 4 * eIn * muESmear

end

end MuIC

/-! ## The event loop of `mainMuIC.cc` (lines 305-307 and 681-686)

The loop is `for (int iEvent = 0; iEvent < nEvent; ++iEvent) { if (!pythia.next()) continue;
... }`.  The state `σ` is everything the program can change (the generator, the random
numbers of ROOT, the histograms and the tree).  The statements after the guard (lines
309-683: the analysis of one generated event) are a parameter `body`; whatever they do is a
list of `Effect`s, none of which is a call of `pythia.next()`, which occurs in the guard
only. -/

namespace MuIC

/-- What the analysis of one event can do to the outside: `K` is the type `double`. -/
inductive Effect (K : Type) where
  /-- A call `hist->Fill(args)` on the histogram booked under the name `hist`. -/
  | fill (hist : String) (args : List K)
  /-- The call `T->Fill()` that writes one tree entry. -/
  | treeFill
  /-- A call `func->SetParameter(index, value)` on a resolution function. -/
  | setParameter (func : String) (index : Nat) (value : K)
  /-- A call `func->GetRandom()` on a resolution function. -/
  | getRandom (func : String)

/-- One step of the event loop. -/
inductive Step (K : Type) where
  /-- The call `pythia.next()` of the guard, with the flag it returned. -/
  | next (ok : Bool)
  /-- An effect of the statements after the guard. -/
  | effect (e : Effect K)

namespace Step

/-- Whether the step is a call of `pythia.next()`. -/
def isNext {K : Type} : Step K → Bool
  | next _ => true
  | effect _ => false

end Step

/-- Line 40: `int nEvent = 50000;`. -/
def nEvent : Nat := 50000

/-- The event loop from the index `iEvent` on, with `remaining = nEvent - iEvent` iterations
left; every step is recorded with the index of its iteration.  When `pythia.next()`
returns `false` the `continue` goes straight to `++iEvent`. -/
def eventLoopFrom {σ K : Type} (next : σ → Bool × σ) (body : σ → List (Effect K) × σ) :
    (remaining : Nat) → (iEvent : Nat) → σ → List (Nat × Step K) × σ
  | 0, _, s => ([], s)
  | remaining + 1, iEvent, s =>
    let r := next s
    if !r.1 then
      let rest := eventLoopFrom next body remaining (iEvent + 1) r.2
      ((iEvent, Step.next false) :: rest.1, rest.2)
    else
      let b := body r.2
      let rest := eventLoopFrom next body remaining (iEvent + 1) b.2
      ((iEvent, Step.next true) :: (b.1.map (fun e => (iEvent, Step.effect e)) ++ rest.1),
        rest.2)

/-- The whole loop of `main`: `for (int iEvent = 0; iEvent < nEvent; ++iEvent)`. -/
def eventLoop {σ K : Type} (next : σ → Bool × σ) (body : σ → List (Effect K) × σ)
    (s : σ) : List (Nat × Step K) × σ :=
  eventLoopFrom next body nEvent 0 s

end MuIC

/-! ## Further accessors of `Vec4` read by the analysis -/

namespace MuIC

noncomputable section

namespace Vec4

/-- Modelled from the spec: `Vec4::eta()` (not under src), the pseudorapidity
`asinh(pz / pT)`. -/
def eta (v : Vec4) : ℝ := Real.arsinh (v.zz / v.pT)

/-- Modelled from the spec: `Vec4::phi()` (not under src), the azimuthal angle
`atan2(py, px)`. -/
def phi (v : Vec4) : ℝ := Complex.arg ⟨v.xx, v.yy⟩

end Vec4

/-- Second argument of `petamuhist->Fill` (line 371) and of `petahadhist->Fill` (line 470):
`pT() * cosh(eta())` of the particle with four-momentum `v`. -/
def petaFillY (v : Vec4) : ℝ := v.pT * Real.cosh v.eta

end

end MuIC

/-! ## The analysis of one event (`mainMuIC.cc`, lines 309-683)

The statements that follow the guard of the event loop.  An event is the list of the
particles of `pythia.event`; a resolution function is named by its C++ variable and a
histogram by the name it is booked under (the variable name, except `Nchhist`, booked as
`"Nch"`).  The successive results of `GetRandom()` are the values `rnd drawn`,
`rnd (drawn + 1)`, ... of a stream, `drawn` counting the draws made so far. -/

namespace MuIC

noncomputable section

/-- Modelled from the spec: the class `Particle` of `Pythia8/Event.h`, which is not under
src, reduced to what its accessors return: `id()`, `statusAbs()`, `isFinal()`,
`isCharged()` (never read by the analysis), the four-momentum `p()` and the mass `m()`.
The accessors `px(), py(), pz(), e(), pAbs(), pT(), phi(), eta()` are those of `p()`. -/
structure Particle where
  /-- Result of `id()`, the PDG code. -/
  id : Int
  /-- Result of `statusAbs()`. -/
  statusAbs : Int
  /-- Result of `isFinal()`. -/
  isFinal : Bool
  /-- Result of `isCharged()`: whether the electric charge is not zero. -/
  isCharged : Bool
  /-- Result of `p()`. -/
  p : Vec4
  /-- Result of `m()`. -/
  m : ℝ

/-- Value read by `event[i]` beyond the end of the record (undefined in C++; the
generator always delivers the entries 0 to 6 that the analysis reads by number). -/
def Particle.vacuum : Particle := ⟨0, 0, false, false, ⟨0, 0, 0, 0⟩, 0⟩

/-- The entry `event[i]`. -/
def entry (event : List Particle) (i : Nat) : Particle := event.getD i Particle.vacuum

/-! ### Resolution functions (lines 42-68) -/

/-- Lines 42-68: the seven resolution functions get their parameter `[0]` before the
loop; no parameter `[1]` is set there. -/
def setupEffects : List (Effect ℝ) :=
  [Effect.setParameter "muAngleResFunc" 0 0.0002,
   Effect.setParameter "muPRelResFunc" 0 0.01,
   Effect.setParameter "chTrkPRelResFunc" 0 0.01,
   Effect.setParameter "chTrkAngleResFunc" 0 0.0002,
   Effect.setParameter "caloAngleResFunc" 0 (0.087 / Real.sqrt 12),
   Effect.setParameter "emERelResFunc" 0 0.02,
   Effect.setParameter "hadERelResFunc" 0 0.1]

/-- The resolution functions whose formula (second argument of `new TF1`, lines 47-67)
contains the parameter `[1]`. -/
def formulaHasParameterOne : List String :=
  ["muPRelResFunc", "chTrkPRelResFunc", "chTrkAngleResFunc", "emERelResFunc",
   "hadERelResFunc"]

/-! ### Smearing of the scattered muon (lines 325-335) -/

/-- Lines 325-331: the calls made on the resolution functions of the muon. -/
def muonSmearEffects (peOut : Vec4) : List (Effect ℝ) :=
  [Effect.setParameter "muPRelResFunc" 1 peOut.pAbs,
   Effect.setParameter "muAngleResFunc" 1 peOut.pAbs,
   Effect.getRandom "muAngleResFunc",
   Effect.getRandom "muPRelResFunc"]

/-- Line 330: `muThetaSmear = peOut.theta() + muAngleResFunc->GetRandom()`. -/
def muThetaSmear (rnd : Nat → ℝ) (drawn : Nat) (peOut : Vec4) : ℝ :=
  peOut.theta + rnd drawn

/-- Line 331: `muPSmear = peOut.pAbs() * (1 + muPRelResFunc->GetRandom())`. -/
def muPSmear (rnd : Nat → ℝ) (drawn : Nat) (peOut : Vec4) : ℝ :=
  peOut.pAbs * (1 + rnd (drawn + 1))

/-- Line 332: `muESmear = sqrt(muPSmear*muPSmear + mMuon*mMuon)`. -/
def muESmear (rnd : Nat → ℝ) (drawn : Nat) (peOut : Vec4) : ℝ :=
  Real.sqrt (muPSmear rnd drawn peOut * muPSmear rnd drawn peOut + mMuon * mMuon)

/-! ### Histogram families -/

/-- The nine names of a family of resolution histograms, in the order in which the source
books, fills and writes them; `sfx` is the suffix of the family (`""`, `"JB"`, ...). -/
def familyNames (sfx : String) : List String :=
  ["hQ2resVsQ2" ++ sfx, "hQ2resVsx" ++ sfx, "hQ2resVsy" ++ sfx,
   "hxresVsQ2" ++ sfx, "hxresVsx" ++ sfx, "hxresVsy" ++ sfx,
   "hyresVsQ2" ++ sfx, "hyresVsx" ++ sfx, "hyresVsy" ++ sfx]

/-- The three names of a family of 3D resolution histograms. -/
def family3DNames (sfx : String) : List String :=
  ["hQ2resVsQ2x" ++ sfx, "hxresVsQ2x" ++ sfx, "hyresVsQ2x" ++ sfx]

/-- The nine `Fill` calls of a family (for instance lines 583-591 for `"JB"`): the relative
deviations of `Q2v, xv, yv` from `Q2rec, xrec, yrec`, each against `Q2rec`, `xrec` and
`yrec`. -/
def resFills (sfx : String) (Q2rec xrec yrec Q2v xv yv : ℝ) : List (Effect ℝ) :=
  [Effect.fill ("hQ2resVsQ2" ++ sfx) [Q2rec, Q2v / Q2rec - 1],
   Effect.fill ("hQ2resVsx" ++ sfx) [xrec, Q2v / Q2rec - 1],
   Effect.fill ("hQ2resVsy" ++ sfx) [yrec, Q2v / Q2rec - 1],
   Effect.fill ("hxresVsQ2" ++ sfx) [Q2rec, xv / xrec - 1],
   Effect.fill ("hxresVsx" ++ sfx) [xrec, xv / xrec - 1],
   Effect.fill ("hxresVsy" ++ sfx) [yrec, xv / xrec - 1],
   Effect.fill ("hyresVsQ2" ++ sfx) [Q2rec, yv / yrec - 1],
   Effect.fill ("hyresVsx" ++ sfx) [xrec, yv / yrec - 1],
   Effect.fill ("hyresVsy" ++ sfx) [yrec, yv / yrec - 1]]

/-- The three `Fill` calls of a 3D family (for instance lines 358-360 for `""`). -/
def resFills3D (sfx : String) (Q2rec xrec yrec Q2v xv yv : ℝ) : List (Effect ℝ) :=
  [Effect.fill ("hQ2resVsQ2x" ++ sfx) [xrec, Q2rec, Q2v / Q2rec - 1],
   Effect.fill ("hxresVsQ2x" ++ sfx) [xrec, Q2rec, xv / xrec - 1],
   Effect.fill ("hyresVsQ2x" ++ sfx) [xrec, Q2rec, yv / yrec - 1]]

/-! ### The loop over the particles (lines 387-472) -/

/-- The local variables `pp, ppx, ppy, ppz, pe, pphi, peta` of lines 398-405 together with
the number of draws made and the calls issued so far. -/
structure Smear where
  /-- Local `pp`. -/
  pp : ℝ
  /-- Local `ppx`. -/
  ppx : ℝ
  /-- Local `ppy`. -/
  ppy : ℝ
  /-- Local `ppz`. -/
  ppz : ℝ
  /-- Local `pe`. -/
  pe : ℝ
  /-- Local `pphi`. -/
  pphi : ℝ
  /-- Local `peta`. -/
  peta : ℝ
  /-- Number of `GetRandom()` results consumed. -/
  drawn : Nat
  /-- Calls made on the resolution functions, in order. -/
  effects : List (Effect ℝ)

/-- Lines 416-424, the block commented `charged particle`. -/
def chargedBlock (rnd : Nat → ℝ) (pmass : ℝ) (s : Smear) : Smear :=
  let pp := s.pp * (1 + rnd s.drawn)
  let pphi := s.pphi + rnd (s.drawn + 1)
  let peta := s.peta + rnd (s.drawn + 2)
  let ppx := pp / Real.cosh peta * Real.cos pphi
  let ppy := pp / Real.cosh peta * Real.sin pphi
  let ppz := pp / Real.cosh peta * Real.sinh peta
  let pe := Real.sqrt (pmass * pmass + ppx * ppx + ppy * ppy + ppz * ppz)
  { pp := pp, ppx := ppx, ppy := ppy, ppz := ppz, pe := pe, pphi := pphi, peta := peta,
    drawn := s.drawn + 3,
    effects := s.effects ++
      [Effect.setParameter "chTrkPRelResFunc" 1 s.pp,
       Effect.getRandom "chTrkPRelResFunc",
       Effect.getRandom "chTrkAngleResFunc",
       Effect.getRandom "chTrkAngleResFunc"] }

/-- Lines 429-436 and 441-448, the blocks commented `photon and electron` and `neutrons`:
they differ by the energy resolution function `eRes` only. -/
def caloBlock (eRes : String) (rnd : Nat → ℝ) (s : Smear) : Smear :=
  let pe := s.pe * (1 + rnd s.drawn)
  let pphi := s.pphi + rnd (s.drawn + 1)
  let peta := s.peta + rnd (s.drawn + 2)
  { pp := s.pp,
    ppx := pe / Real.cosh peta * Real.cos pphi,
    ppy := pe / Real.cosh peta * Real.sin pphi,
    ppz := pe / Real.cosh peta * Real.sinh peta,
    pe := pe, pphi := pphi, peta := peta,
    drawn := s.drawn + 3,
    effects := s.effects ++
      [Effect.setParameter eRes 1 s.pe,
       Effect.getRandom eRes,
       Effect.getRandom "caloAngleResFunc",
       Effect.getRandom "caloAngleResFunc"] }

/-- Lines 398-449: the smearing of one selected particle.  The three `if` statements are
tested one after the other; `fabs(event[i].id())==211` compares `|id|` with `211`. -/
def smearParticle (rnd : Nat → ℝ) (drawn : Nat) (part : Particle) : Smear :=
  let s : Smear :=
    { pp := part.p.pAbs, ppx := part.p.xx, ppy := part.p.yy, ppz := part.p.zz,
      pe := part.p.e, pphi := part.p.phi, peta := part.p.eta,
      drawn := drawn, effects := [] }
  let pmass := part.m
  let s := if part.id.natAbs = 211 ∨ part.id.natAbs = 321 ∨ part.id.natAbs = 2212
      ∨ part.id.natAbs = 11 then chargedBlock rnd pmass s else s
  let s := if part.id.natAbs = 22 then caloBlock "emERelResFunc" rnd s else s
  let s := if part.id.natAbs = 2112 then caloBlock "hadERelResFunc" rnd s else s
  s

/-- The accumulators declared at lines 374-385. -/
structure Sums where
  /-- Counter `nMult` (an `int`). -/
  nMult : Nat
  /-- Accumulator `sumPx`. -/
  sumPx : ℝ
  /-- Accumulator `sumPy`. -/
  sumPy : ℝ
  /-- Accumulator `sumEPz`. -/
  sumEPz : ℝ
  /-- Accumulator `sumPx4`. -/
  sumPx4 : ℝ
  /-- Accumulator `sumPy4`. -/
  sumPy4 : ℝ
  /-- Accumulator `sumEPz4`. -/
  sumEPz4 : ℝ
  /-- Accumulator `sumPx5`. -/
  sumPx5 : ℝ
  /-- Accumulator `sumPy5`. -/
  sumPy5 : ℝ
  /-- Accumulator `sumEPz5`. -/
  sumEPz5 : ℝ

/-- Lines 374-385: all accumulators start at zero. -/
def Sums.zero : Sums := ⟨0, 0, 0, 0, 0, 0, 0, 0, 0, 0⟩

/-- State of the loop over the particles. -/
structure LoopState where
  /-- The accumulators. -/
  sums : Sums
  /-- Number of `GetRandom()` results consumed. -/
  drawn : Nat
  /-- Effects so far, in order. -/
  effects : List (Effect ℝ)

/-- Lines 451-469: the sums and the counter after one selected particle of pseudorapidity
`eta = event[i].eta()`, with the smeared `ppx, ppy, pe, ppz`. -/
def addToSums (sums : Sums) (eta ppx ppy pe ppz : ℝ) : Sums :=
  { nMult := if |eta| < 5 then sums.nMult + 1 else sums.nMult,
    sumPx := sums.sumPx + ppx,
    sumPy := sums.sumPy + ppy,
    sumEPz := sums.sumEPz + (pe - ppz),
    sumPx4 := if |eta| < 4 then sums.sumPx4 + ppx else sums.sumPx4,
    sumPy4 := if |eta| < 4 then sums.sumPy4 + ppy else sums.sumPy4,
    sumEPz4 := if |eta| < 4 then sums.sumEPz4 + (pe - ppz) else sums.sumEPz4,
    sumPx5 := if |eta| < 5 then sums.sumPx5 + ppx else sums.sumPx5,
    sumPy5 := if |eta| < 5 then sums.sumPy5 + ppy else sums.sumPy5,
    sumEPz5 := if |eta| < 5 then sums.sumEPz5 + (pe - ppz) else sums.sumEPz5 }

/-- Lines 389-471: one iteration of the loop over the particles, for `event[i] = part`;
`pT6` is `event[6].pT()`. -/
def particleStep (rnd : Nat → ℝ) (pT6 : ℝ) (st : LoopState) (part : Particle) :
    LoopState :=
  let radiated : List (Effect ℝ) :=
    if part.statusAbs = 43 then
      [Effect.fill "pTrhist" [part.p.pT], Effect.fill "pTdhist" [part.p.pT / pT6]]
    else []
  if part.isFinal = true ∧ part.id ≠ 13 then
    let s := smearParticle rnd st.drawn part
    { sums := addToSums st.sums part.p.eta s.ppx s.ppy s.pe s.ppz,
      drawn := s.drawn,
      effects := st.effects ++ radiated ++ s.effects ++
        [Effect.fill "petahadhist" [part.p.eta, petaFillY part.p]] }
  else
    { st with effects := st.effects ++ radiated }

/-- Lines 387-472: `for (int i = 0; i < event.size(); ++i)`. -/
def particleLoop (rnd : Nat → ℝ) (pT6 : ℝ) (drawn : Nat) (event : List Particle) :
    LoopState :=
  event.foldl (particleStep rnd pT6) ⟨Sums.zero, drawn, []⟩

/-! ### Hadronic reconstruction (lines 473-509) -/

/-- Line 485: `xA4 = Q2A4/yA4/roots/roots`. -/
def xA4 (Q2A4 yA4 : ℝ) : ℝ := Q2A4 / yA4 / roots / roots

/-- The nine quantities that lines 473-485 compute from `sumPx, sumPy, sumEPz` (and lines
487-509 from the sums restricted to `|eta| < 5` and `|eta| < 4`). -/
structure Hadronic where
  /-- Value `Q2jb`. -/
  Q2jb : ℝ
  /-- Value `xjb`. -/
  xjb : ℝ
  /-- Value `yjb`. -/
  yjb : ℝ
  /-- Value `Q2DA`. -/
  Q2DA : ℝ
  /-- Value `xDA`. -/
  xDA : ℝ
  /-- Value `yDA`. -/
  yDA : ℝ
  /-- Value `Q2A4`. -/
  Q2A4 : ℝ
  /-- Value `xA4`. -/
  xA4 : ℝ
  /-- Value `yA4`. -/
  yA4 : ℝ

/-- Lines 473-485 (and their two copies at lines 487-509). -/
def hadronic (eIn muThetaSmear muESmear sumPx sumPy sumEPz : ℝ) : Hadronic :=
  let pt2 := sumPt2 sumPx sumPy
  let vyjb := yjb sumEPz eIn
  let vQ2jb := Q2jb pt2 vyjb
  let agl := agljb pt2 sumEPz
  let vQ2DA := Q2DA eIn agl muThetaSmear
  let vyDA := yDA agl muThetaSmear
  let vyA4 := yA4 muESmear eIn pt2 agl
  let vQ2A4 := Q2A4 muESmear eIn pt2 agl
  { Q2jb := vQ2jb, xjb := xjb vQ2jb vyjb, yjb := vyjb,
    Q2DA := vQ2DA, xDA := xDA vQ2DA vyDA, yDA := vyDA,
    Q2A4 := vQ2A4, xA4 := xA4 vQ2A4 vyA4, yA4 := vyA4 }

/-! ### The whole analysis -/

/-- Lines 338-344: the kinematics histograms, filled before the cut on `yrec`. -/
def kinematicFills (pProton peIn peOut : Vec4) (p6 : Vec4) : List (Effect ℝ) :=
  [Effect.fill "Qhist" [Real.sqrt (Q2 peIn peOut)],
   Effect.fill "Whist" [Real.sqrt (W2 pProton peIn peOut)],
   Effect.fill "xhist" [x pProton peIn peOut],
   Effect.fill "yhist" [y pProton peIn peOut],
   Effect.fill "pTehist" [p6.pT],
   Effect.fill "Q2xhist" [x pProton peIn peOut, Q2 peIn peOut]] ++
  (if |p6.eta| < 6 then [Effect.fill "Q2xhist_eta" [x pProton peIn peOut, Q2 peIn peOut]]
   else [])

/-- Line 346, `if(yrec>0.999 || yrec<0.001) continue;`: the event passes the cut when the
condition of the `continue` is false. -/
def passesYCut (yrec : ℝ) : Prop := ¬ (yrec > 0.999 ∨ yrec < 0.001)

/-- Lines 583-683: the fills that follow the loop over the particles. -/
def hadronicFills (Q2rec xrec yrec : ℝ) (all eta4 eta5 : Hadronic) (nMult : Nat) :
    List (Effect ℝ) :=
  resFills "JB" Q2rec xrec yrec all.Q2jb all.xjb all.yjb ++
  resFills "JB4" Q2rec xrec yrec eta4.Q2jb eta4.xjb eta4.yjb ++
  resFills "JB5" Q2rec xrec yrec eta5.Q2jb eta5.xjb eta5.yjb ++
  resFills "DA" Q2rec xrec yrec all.Q2DA all.xDA all.yDA ++
  resFills "DA4" Q2rec xrec yrec eta4.Q2DA eta4.xDA eta4.yDA ++
  resFills "DA5" Q2rec xrec yrec eta5.Q2DA eta5.xDA eta5.yDA ++
  resFills "A4" Q2rec xrec yrec all.Q2A4 all.xA4 all.yA4 ++
  resFills "A4Eta4" Q2rec xrec yrec eta4.Q2A4 eta4.xA4 eta4.yA4 ++
  resFills "A4Eta5" Q2rec xrec yrec eta5.Q2A4 eta5.xA4 eta5.yA4 ++
  resFills3D "JB5" Q2rec xrec yrec eta5.Q2jb eta5.xjb eta5.yjb ++
  resFills3D "DA5" Q2rec xrec yrec eta5.Q2DA eta5.xDA eta5.yDA ++
  [Effect.fill "Nch" [(nMult : ℝ)], Effect.treeFill]

/-- Result of the analysis of one event. -/
structure Analysis where
  /-- Effects of the analysis, in order. -/
  effects : List (Effect ℝ)
  /-- Number of `GetRandom()` results consumed afterwards. -/
  drawn : Nat

/-- Lines 309-683: the analysis of one generated event. -/
def analyse (rnd : Nat → ℝ) (drawn : Nat) (event : List Particle) : Analysis :=
  let pProton := (entry event 1).p
  let peIn := (entry event 4).p
  let peOut := (entry event 6).p
  let vQ2rec := Q2rec peIn peOut
  let vyrec := yrec peIn peOut
  let vxrec := xrec peIn peOut
  let thetaSm := muThetaSmear rnd drawn peOut
  let eSm := muESmear rnd drawn peOut
  let Q2recsm := Q2recOf peIn.e eSm thetaSm
  let yrecsm := yrecOf peIn.e eSm thetaSm
  let xrecsm := xrecOf Q2recsm yrecsm
  let drawn := drawn + 2
  let effects := muonSmearEffects peOut ++ kinematicFills pProton peIn peOut peOut
  if vyrec > 0.999 ∨ vyrec < 0.001 then
    { effects := effects, drawn := drawn }
  else
    let effects := effects ++
      resFills "" vQ2rec vxrec vyrec Q2recsm xrecsm yrecsm ++
      resFills3D "" vQ2rec vxrec vyrec Q2recsm xrecsm yrecsm ++
      [Effect.fill "petamuhist" [peOut.eta, petaFillY peOut]]
    let loop := particleLoop rnd peOut.pT drawn event
    let sums := loop.sums
    let all := hadronic peIn.e thetaSm eSm sums.sumPx sums.sumPy sums.sumEPz
    let eta5 := hadronic peIn.e thetaSm eSm sums.sumPx5 sums.sumPy5 sums.sumEPz5
    let eta4 := hadronic peIn.e thetaSm eSm sums.sumPx4 sums.sumPy4 sums.sumEPz4
    { effects := effects ++ loop.effects ++
        hadronicFills vQ2rec vxrec vyrec all eta4 eta5 sums.nMult,
      drawn := loop.drawn }

/-! ### After the loop (lines 687-818) -/

/-- Lines 693-816: the histograms on which `Write()` is called, in order (line 692 writes
the tree `T`). -/
def writeCalls : List String :=
  ["Nch", "Qhist", "Whist", "xhist", "yhist", "pTehist", "pTrhist", "pTdhist", "Q2xhist",
   "Q2xhist_eta", "petahadhist", "petamuhist"] ++
  familyNames "" ++ familyNames "JB" ++ familyNames "JB4" ++ familyNames "JB5" ++
  familyNames "DA" ++ familyNames "DA4" ++ familyNames "DA5" ++
  familyNames "A4" ++ familyNames "A4Eta4" ++ familyNames "A4Eta5" ++
  family3DNames "" ++ family3DNames "JB5" ++ family3DNames "DA5"

/-- Lines 107-295: the histograms that are booked, in order. -/
def booked : List String :=
  ["Nch", "Qhist", "Whist", "xhist", "yhist", "pTehist", "pTrhist", "pTdhist", "Q2xhist",
   "Q2xhist_eta", "petahadhist", "petamuhist"] ++
  familyNames "" ++ familyNames "JB" ++ familyNames "JB4" ++ familyNames "JB5" ++
  familyNames "DA" ++ familyNames "DA4" ++ familyNames "DA5" ++
  familyNames "A2" ++ familyNames "A2Eta4" ++ familyNames "A2Eta5" ++
  familyNames "A4" ++ familyNames "A4Eta4" ++ familyNames "A4Eta5" ++
  familyNames "A5" ++ familyNames "A5Eta4" ++ familyNames "A5Eta5" ++
  family3DNames "" ++ family3DNames "JB5" ++ family3DNames "DA5"

/-! ### The analysis inside the event loop -/

/-- The statements after the guard, as the `body` of `eventLoop`: the state is the
generator (whose current record is `eventOf g`) and the number of draws made. -/
def mainBody {G : Type} (eventOf : G → List Particle) (rnd : Nat → ℝ) (w : G × Nat) :
    List (Effect ℝ) × (G × Nat) :=
  let a := analyse rnd w.2 (eventOf w.1)
  (a.effects, (w.1, a.drawn))

/-- The guard `pythia.next()` on the same state. -/
def mainNext {G : Type} (next : G → Bool × G) (w : G × Nat) : Bool × (G × Nat) :=
  ((next w.1).1, ((next w.1).2, w.2))

/-- The event loop of `main` with its body. -/
def mainLoop {G : Type} (next : G → Bool × G) (eventOf : G → List Particle)
    (rnd : Nat → ℝ) (g : G) : List (Nat × Step ℝ) × (G × Nat) :=
  eventLoop (mainNext next) (mainBody eventOf rnd) (g, 0)

/-! ### Observations on a list of effects -/

/-- The histograms filled by a list of effects, in order. -/
def fillNames (effects : List (Effect ℝ)) : List String :=
  effects.filterMap (fun e => match e with
    | Effect.fill hist _ => some hist
    | _ => none)

/-- The arguments of the `Fill` calls made on the histogram `hist`, in order. -/
def fillsOf (hist : String) (effects : List (Effect ℝ)) : List (List ℝ) :=
  effects.filterMap (fun e => match e with
    | Effect.fill h args => if h = hist then some args else none
    | _ => none)

/-- What the counter `nMult` counts (lines 396 and 469): the entries of the record with
`isFinal()`, `id() != 13` and `|eta()| < 5`. -/
def nMultOf (event : List Particle) : Nat :=
  (event.filter
    (fun part => decide (part.isFinal = true ∧ part.id ≠ 13 ∧ |part.p.eta| < 5))).length

/-- The charged multiplicity announced by the title `N_{ch}` of the histogram `Nch`: the
number of charged final-state particles of the event with `|eta| < 5`. -/
def chargedMultiplicity (event : List Particle) : Nat :=
  (event.filter
    (fun part => decide (part.isFinal = true ∧ part.isCharged = true
      ∧ |part.p.eta| < 5))).length

/-- The same count without the particles of code `13`, which the selection of line 396
leaves out. -/
def chargedHadronicMultiplicity (event : List Particle) : Nat :=
  (event.filter
    (fun part => decide (part.isFinal = true ∧ part.id ≠ 13 ∧ part.isCharged = true
      ∧ |part.p.eta| < 5))).length

/-! ### Small events used as concrete inputs -/

/-- The beam proton `event[1]`, of four-momentum `(1, 0, 0, 1)`. -/
def beamProton : Particle := ⟨2212, 12, false, true, ⟨0, 0, 1, 1⟩, 0⟩

/-- The incoming muon `event[4]`, of four-momentum `(2, 0, 0, -2)`. -/
def muonIn : Particle := ⟨13, 21, false, true, ⟨0, 0, -2, 2⟩, 0⟩

/-- The scattered muon `event[6]`, of four-momentum `(1, 1, 0, 0)`: final and charged. -/
def muonOut : Particle := ⟨13, 23, true, true, ⟨1, 0, 0, 1⟩, 0⟩

/-- A parton radiated in the shower (status 43), not final. -/
def radiated : Particle := ⟨21, 43, false, false, ⟨0, 1, 0, 1⟩, 0⟩

/-- A final-state photon: neutral. -/
def photon : Particle := ⟨22, 91, true, false, ⟨0, 1, 0, 1⟩, 0⟩

/-- A final-state charged pion. -/
def pion : Particle := ⟨211, 83, true, true, ⟨0, 1, 0, 2⟩, 1⟩

/-- A final-state electron. -/
def electron : Particle := ⟨11, 91, true, true, ⟨0, 1, 0, 1⟩, 0⟩

/-- The entries 0 to 6 of a record; `fifth` is the entry `event[5]`. -/
def hardProcess (fifth : Particle) : List Particle :=
  [Particle.vacuum, beamProton, Particle.vacuum, Particle.vacuum, muonIn, fifth, muonOut]

/-- An event whose final state is the scattered muon and two photons. -/
def photonEvent : List Particle := hardProcess Particle.vacuum ++ [photon, photon]

/-- An event whose final state is the scattered muon and one charged pion. -/
def pionEvent : List Particle := hardProcess Particle.vacuum ++ [pion]

/-- An event with a radiated parton and a final-state pion. -/
def fullEvent : List Particle := hardProcess radiated ++ [pion]

/-- The histograms that one entry of the record fills in the loop over the particles. -/
def particleFillNames (part : Particle) : List String :=
  (if part.statusAbs = 43 then ["pTrhist", "pTdhist"] else [])
    ++ (if part.isFinal = true ∧ part.id ≠ 13 then ["petahadhist"] else [])

/-- The histograms filled by lines 583-681, in order. -/
def hadronicFillNames : List String :=
  familyNames "JB" ++ familyNames "JB4" ++ familyNames "JB5" ++
  familyNames "DA" ++ familyNames "DA4" ++ familyNames "DA5" ++
  familyNames "A4" ++ familyNames "A4Eta4" ++ familyNames "A4Eta5" ++
  family3DNames "JB5" ++ family3DNames "DA5" ++ ["Nch"]

/-- The calls made on the resolution functions by a list of effects, in order:
`(func, some i)` for `func->SetParameter(i, ...)` and `(func, none)` for
`func->GetRandom()`. -/
def resolutionCalls (effects : List (Effect ℝ)) : List (String × Option Nat) :=
  effects.filterMap (fun e => match e with
    | Effect.setParameter func index _ => some (func, some index)
    | Effect.getRandom func => some (func, none)
    | _ => none)

/-- The calls that the charged-particle block makes on the resolution functions. -/
def trackCalls : List (String × Option Nat) :=
  [("chTrkPRelResFunc", some 1), ("chTrkPRelResFunc", none),
   ("chTrkAngleResFunc", none), ("chTrkAngleResFunc", none)]

/-- The calls that a calorimeter block makes on the resolution functions. -/
def caloCalls (eRes : String) : List (String × Option Nat) :=
  [(eRes, some 1), (eRes, none), ("caloAngleResFunc", none), ("caloAngleResFunc", none)]

/-- The calls that one entry of the record causes in the loop over the particles. -/
def particleCalls (part : Particle) : List (String × Option Nat) :=
  if part.isFinal = true ∧ part.id ≠ 13 then
    (if part.id.natAbs = 211 ∨ part.id.natAbs = 321 ∨ part.id.natAbs = 2212
        ∨ part.id.natAbs = 11 then trackCalls else [])
      ++ (if part.id.natAbs = 22 then caloCalls "emERelResFunc" else [])
      ++ (if part.id.natAbs = 2112 then caloCalls "hadERelResFunc" else [])
  else []

/-- The calls that the smearing of the muon makes on the resolution functions. -/
def muonCalls : List (String × Option Nat) :=
  [("muPRelResFunc", some 1), ("muAngleResFunc", some 1), ("muAngleResFunc", none),
   ("muPRelResFunc", none)]

/-- An event whose final state is the scattered muon and one electron. -/
def electronEvent : List Particle := hardProcess Particle.vacuum ++ [electron]

end

end MuIC

/-! # Theorems -/

namespace CheckSA

/-! ## Strings -/

theorem foldl_append_acc (l : List String) (acc : String) :
    l.foldl (fun r s => r ++ s) acc = acc ++ String.join l := by
  induction l generalizing acc with
  | nil => simp [String.join]
  | cons a l ih =>
    simp only [List.foldl_cons, String.join]
    rw [ih, ih ("" ++ a), String.empty_append, String.append_assoc]

theorem join_nil : String.join [] = "" := rfl

theorem join_cons (a : String) (l : List String) :
    String.join (a :: l) = a ++ String.join l := by
  simp only [String.join, List.foldl_cons]
  rw [foldl_append_acc, String.empty_append]
  rfl

theorem join_append (l₁ l₂ : List String) :
    String.join (l₁ ++ l₂) = String.join l₁ ++ String.join l₂ := by
  induction l₁ with
  | nil => simp [join_nil]
  | cons a l ih => simp [join_cons, ih, String.append_assoc]

theorem foldl_emit {α : Type} (l : List α) (g : α → String) (acc : String) :
    l.foldl (fun ss x => ss ++ g x) acc = acc ++ String.join (l.map g) := by
  induction l generalizing acc with
  | nil => simp [join_nil]
  | cons a l ih => simp [join_cons, ih, String.append_assoc]

theorem intercalate_go (acc s : String) (l : List String) :
    String.intercalate.go acc s l = acc ++ String.join (l.map (fun x => s ++ x)) := by
  induction l generalizing acc with
  | nil => simp [String.intercalate.go, join_nil]
  | cons a l ih => simp [String.intercalate.go, join_cons, ih, String.append_assoc]

theorem join_shift (s : String) (l : List String) :
    String.join (l.map (fun x => s ++ x)) ++ s = s ++ String.join (l.map (fun x => x ++ s)) := by
  induction l with
  | nil => simp [join_nil]
  | cons c l ih =>
    simp only [List.map_cons, join_cons, String.append_assoc]
    rw [ih]

theorem intercalate_snoc (s : String) (l : List String) (a : String) :
    String.intercalate s (l ++ [a]) = String.join (l.map (fun x => x ++ s)) ++ a := by
  cases l with
  | nil => simp [String.intercalate, String.intercalate.go, join_nil]
  | cons b l =>
    simp only [List.cons_append, String.intercalate, intercalate_go, List.map_cons, join_cons,
      List.map_append, join_append, List.map_nil, join_nil, String.append_empty]
    rw [← String.append_assoc (String.join _) s a, join_shift]
    simp only [String.append_assoc]

theorem map_getD_range (l : List Int) :
    (List.range l.length).map (fun i => l.getD i 0) = l := by
  apply List.ext_getElem
  · simp
  · intro i h1 h2
    simp at h1
    simp [List.getD_eq_getElem, h1]

/-! ## `proc_string` -/

theorem inLoop_eq (in_pdgs : List Int) (ss : String) :
    inLoop in_pdgs ss = ss ++ String.join (in_pdgs.map (fun x => toString x ++ " ")) := by
  unfold inLoop
  simp only [String.append_assoc]
  rw [foldl_emit (List.range in_pdgs.length) (fun i => toString (in_pdgs.getD i 0) ++ " ") ss]
  congr 2
  conv_rhs => rw [← map_getD_range in_pdgs]
  simp [List.map_map, Function.comp_def]

theorem chanLoop_eq (s : Finset Int) (ss : String) :
    chanLoop s ss = ss ++ String.join ((s.sort (· ≤ ·)).map (fun x => toString x ++ " ")) := by
  unfold chanLoop
  simp only [String.append_assoc]
  rw [foldl_emit]

theorem outLoop_eq (out_pdgs : List Int) (ss : String) :
    outLoop out_pdgs ss = ss ++ " ".intercalate (out_pdgs.map toString) := by
  unfold outLoop
  have body : ∀ (n : Nat) (ss : String) (i : Nat),
      (let ss := ss ++ toString (out_pdgs.getD i 0)
       if i ≠ n then ss ++ " " else ss) =
      ss ++ (toString (out_pdgs.getD i 0) ++ if i ≠ n then " " else "") := by
    intro n ss i
    by_cases h : i = n <;> simp [h, String.append_assoc]
  simp only [body]
  rw [foldl_emit]
  congr 1
  induction out_pdgs using List.reverseRecOn with
  | nil => simp [join_nil, String.intercalate]
  | append_singleton l a _ =>
    simp only [List.length_append, List.length_singleton, Nat.add_sub_cancel, List.range_succ,
      List.map_append, List.map_cons, List.map_nil, join_append, join_cons, join_nil,
      String.append_empty, intercalate_snoc]
    have h1 : (List.range l.length).map
        (fun i => toString ((l ++ [a]).getD i 0) ++ if i ≠ l.length then " " else "") =
        (l.map toString).map (fun x => x ++ " ") := by
      conv_rhs => rw [← map_getD_range l]
      simp only [List.map_map]
      apply List.map_congr_left
      intro i hi
      have hi' : i < l.length := List.mem_range.mp hi
      simp [List.getD_eq_getElem, hi', List.getElem_append_left, Nat.ne_of_lt hi',
        Nat.lt_succ_of_lt hi']
    rw [h1]
    simp

theorem proc_string_eq_spec (in_pdgs out_pdgs : List Int) (s : Finset Int) :
    proc_string in_pdgs out_pdgs s = procStringSpec in_pdgs out_pdgs s := by
  unfold proc_string procStringSpec
  simp only [outLoop_eq, inLoop_eq, chanLoop_eq, String.empty_append]
  by_cases h : s.Nonempty
  · have : s.card > 0 := Finset.card_pos.mpr h
    simp [h, this, String.append_assoc]
  · have : ¬ s.card > 0 := fun hc => h (Finset.card_pos.mp hc)
    simp [h, this, String.append_assoc]

theorem sort_two_five : Finset.sort (· ≤ ·) ({2, 5} : Finset Int) = [2, 5] := by
  have h : ({2, 5} : Finset Int) = [2, 5].toFinset := by decide
  rw [h, List.toFinset_sort _ (by decide)]
  decide

/-- C1: `proc_string` returns exactly the incoming codes each followed by a space, then
(only for a non-empty set) `"> "` and the required s-channels in ascending order each
followed by a space, then `"> "`, then the outgoing codes separated by single spaces; the
two processes of `main` render as stated and an empty `out_pdgs` ends the string with
`"> "`. -/
theorem proc_string_format :
    (∀ (in_pdgs out_pdgs : List Int) (req_s_channels : Finset Int),
      proc_string in_pdgs out_pdgs req_s_channels =
        String.join (in_pdgs.map (fun x => toString x ++ " "))
          ++ (if req_s_channels.Nonempty then
                "> " ++ String.join
                  ((req_s_channels.sort (· ≤ ·)).map (fun x => toString x ++ " "))
              else "")
          ++ "> "
          ++ " ".intercalate (out_pdgs.map toString))
    ∧ proc_string [33, 43] [33, 2, 1, 5] {2, 5} = "33 43 > 2 5 > 33 2 1 5"
    ∧ proc_string [25] [21, 21, 21] ∅ = "25 > 21 21 21"
    ∧ (∀ (in_pdgs : List Int) (req_s_channels : Finset Int),
        ∃ front, proc_string in_pdgs [] req_s_channels = front ++ "> ") := by
  refine ⟨fun i o s => proc_string_eq_spec i o s, ?_, by decide, ?_⟩
  · simp only [proc_string, chanLoop, sort_two_five]
    decide
  · intro i s
    refine ⟨inLoop i "" ++
      (if s.Nonempty then
        "> " ++ String.join ((s.sort (· ≤ ·)).map (fun x => toString x ++ " ")) else ""), ?_⟩
    rw [proc_string_eq_spec]
    simp [procStringSpec, inLoop_eq, String.intercalate]

end CheckSA

namespace CheckSA

/-! ## `run_proc` -/

theorem foldlM_option_inv {α β : Type} (f : β → α → Option β) (P : β → Prop)
    (hf : ∀ b a b', P b → f b a = some b' → P b') :
    ∀ (l : List α) (b b' : β), P b → l.foldlM f b = some b' → P b' := by
  intro l
  induction l with
  | nil =>
    intro b b' hb h
    simp only [List.foldlM_nil] at h
    cases h
    exact hb
  | cons a l ih =>
    intro b b' hb h
    simp only [List.foldlM_cons] at h
    cases hfa : f b a with
    | none => simp [hfa] at h
    | some b1 =>
      simp only [hfa, Option.some_bind, Option.bind_eq_bind] at h
      exact ih b1 b' (hf b a b1 hb hfa) h

theorem copyRow_length {D : Type} (p : List (List D)) (i : Nat) (row row' : List D)
    (h : copyRow p i row = some row') : row'.length = row.length := by
  unfold copyRow at h
  refine foldlM_option_inv _ (fun r => r.length = row.length) ?_ _ row row' rfl h
  intro b j b' hb hstep
  cases hpi : p[i]? with
  | none => simp [hpi] at hstep
  | some pi =>
    cases hx : pi[j]? with
    | none => simp [hpi, hx] at hstep
    | some x =>
      by_cases hj : j < b.length
      · simp [hpi, hx, hj] at hstep
        subst hstep
        simpa using hb
      · simp [hpi, hx, hj] at hstep

theorem copyMomenta_shape {D : Type} (n m : Nat) (p p_vec p_vec' : List (List D))
    (hrows : ∀ row ∈ p_vec, row.length = 4) (hlen : p_vec.length = m)
    (h : copyMomenta n p p_vec = some p_vec') :
    p_vec'.length = m ∧ ∀ row ∈ p_vec', row.length = 4 := by
  unfold copyMomenta at h
  refine foldlM_option_inv _ (fun pv => pv.length = m ∧ ∀ row ∈ pv, row.length = 4) ?_ _
    p_vec p_vec' ⟨hlen, hrows⟩ h
  intro b i b' hb hstep
  cases hrow : b[i]? with
  | none => simp [hrow] at hstep
  | some row =>
    cases hc : copyRow p i row with
    | none => simp [hrow, hc] at hstep
    | some row' =>
      simp [hrow, hc] at hstep
      subst hstep
      refine ⟨by simpa using hb.1, ?_⟩
      intro r hr
      rcases List.mem_or_eq_of_mem_set hr with hr' | hr'
      · exact hb.2 r hr'
      · subst hr'
        rw [copyRow_length p i row r hc]
        exact hb.2 row (List.getElem?_mem hrow)

theorem castMomenta_shape {Q M D : Type} [NatCast D] (c : Collaborators Q M D)
    (in_pdgs out_pdgs : List Int) (q : Q) (p_vec : List (List D))
    (h : castMomenta c in_pdgs out_pdgs q = some p_vec) :
    p_vec.length = in_pdgs.length + out_pdgs.length ∧ ∀ row ∈ p_vec, row.length = 4 := by
  unfold castMomenta at h
  refine copyMomenta_shape _ _ _ _ _ ?_ (by simp) h
  intro row hrow
  rw [List.eq_of_mem_replicate hrow]
  simp

theorem stdout_append {Q M D : Type} (t₁ t₂ : List (Action Q M D)) :
    stdout (t₁ ++ t₂) = stdout t₁ ++ stdout t₂ := by
  simp [stdout, join_append]

theorem stdout_cons {Q M D : Type} (a : Action Q M D) (t : List (Action Q M D)) :
    stdout (a :: t) = a.printed ++ stdout t := by
  simp [stdout, join_cons]

theorem stdout_nil {Q M D : Type} : stdout ([] : List (Action Q M D)) = "" := rfl

theorem foldl_snoc_eq {α β : Type} (l : List α) (g : α → β) (acc : List β) :
    l.foldl (fun t i => t ++ [g i]) acc = acc ++ l.map g := by
  induction l generalizing acc with
  | nil => simp
  | cons a l ih => simp [ih]

/-- Unfolding of `run_proc` for an unavailable process. -/
theorem run_proc_none {Q M D : Type} [NatCast D] (c : Collaborators Q M D)
    (in_pdgs out_pdgs : List Int) (s : Finset Int)
    (h : c.getProcess in_pdgs out_pdgs s = none) :
    run_proc c in_pdgs out_pdgs s = some
      [Action.callGetProcess in_pdgs out_pdgs s, Action.print " -> Process '",
       Action.print (proc_string in_pdgs out_pdgs s), Action.print "'",
       Action.print " is not available.", Action.print "\n"] := by
  simp [run_proc, h]

/-- Unfolding of `run_proc` for an available process whose evaluation is reached. -/
theorem run_proc_some {Q M D : Type} [NatCast D] (c : Collaborators Q M D)
    (in_pdgs out_pdgs : List Int) (s : Finset Int) (q : Q) (p_vec : List (List D))
    (hq : c.getProcess in_pdgs out_pdgs s = some q)
    (hp : castMomenta c in_pdgs out_pdgs q = some p_vec) :
    run_proc c in_pdgs out_pdgs s = some
      ([Action.callGetProcess in_pdgs out_pdgs s, Action.print " -> Process '",
        Action.print (proc_string in_pdgs out_pdgs s), Action.print "'",
        Action.print " is available.", Action.print "\n",
        Action.derefQuery q,
        Action.callGetMomenta in_pdgs.length ((1500 : Nat) : D) (c.getMasses q),
        Action.callCalculateME in_pdgs out_pdgs p_vec s [] []] ++
       if (c.calculateME in_pdgs out_pdgs p_vec s [] []).2 = false then
         [Action.print " | Its evaluation failed.", Action.print "\n"]
       else
         [Action.print " | Momenta:", Action.print "\n"] ++
         (List.range (in_pdgs.length + out_pdgs.length)).map
           (fun i => Action.print (momentumLine c p_vec i)) ++
         [Action.print " | Matrix element : ",
          Action.print (c.sci 17 (c.calculateME in_pdgs out_pdgs p_vec s [] []).1),
          Action.print " GeV^",
          Action.print
            (toString (-(2 * ((in_pdgs.length + out_pdgs.length : Nat) : Int) - 8))),
          Action.print "\n"]) := by
  unfold castMomenta at hp
  simp only [] at hp
  unfold run_proc
  simp only [hq, hp, foldl_snoc_eq]
  cases hres : (c.calculateME in_pdgs out_pdgs p_vec s [] []).2 <;> simp

end CheckSA

namespace CheckSA

theorem list_length_four {D : Type} (row : List D) (h : row.length = 4) :
    ∃ a b c d, row = [a, b, c, d] := by
  match row, h with
  | [a, b, c, d], _ => exact ⟨a, b, c, d, rfl⟩

/-- C2: when `getProcess` returns a null pointer, `run_proc` returns after printing exactly
`" -> Process '" + proc_string(...) + "' is not available."` and a newline; the run holds
no call of `get_momenta`, no call of `calculateME` and no dereference of the query. -/
theorem run_proc_not_available {Q M D : Type} [NatCast D] (c : Collaborators Q M D)
    (in_pdgs out_pdgs : List Int) (req_s_channels : Finset Int)
    (hnull : c.getProcess in_pdgs out_pdgs req_s_channels = none) :
    ∃ trace, run_proc c in_pdgs out_pdgs req_s_channels = some trace ∧
      stdout trace =
        " -> Process '" ++ proc_string in_pdgs out_pdgs req_s_channels
          ++ "' is not available." ++ "\n" ∧
      ∀ a ∈ trace, a.isGetMomenta = false ∧ a.isCalculateME = false ∧ a.isDeref = false := by
  refine ⟨_, run_proc_none c in_pdgs out_pdgs req_s_channels hnull, ?_, ?_⟩
  · simp only [stdout_cons, stdout_nil, Action.printed, String.append_empty,
      String.empty_append, String.append_assoc]
    rfl
  · intro a ha
    simp only [List.mem_cons, List.mem_singleton, List.not_mem_nil, or_false] at ha
    rcases ha with h | h | h | h | h | h <;> subst h <;> simp [Action.isGetMomenta,
      Action.isCalculateME, Action.isDeref]

/-- Witness of C2: the first test of `main`, the unavailable process `33 43 > 2 5 > 33 2 1 5`. -/
theorem run_proc_not_available_witness :
    (demo true).getProcess [33, 43] [33, 2, 1, 5] {2, 5} = none ∧
    ∃ trace, run_proc (demo true) [33, 43] [33, 2, 1, 5] {2, 5} = some trace ∧
      stdout trace =
        " -> Process '" ++ proc_string [33, 43] [33, 2, 1, 5] {2, 5}
          ++ "' is not available." ++ "\n" ∧
      ∀ a ∈ trace, a.isGetMomenta = false ∧ a.isCalculateME = false ∧ a.isDeref = false :=
  ⟨by decide, run_proc_not_available (demo true) [33, 43] [33, 2, 1, 5] {2, 5} (by decide)⟩

/-- C3: for an available process whose evaluation is reached and reports failure (second
component of the pair `false`), `run_proc` returns after printing the availability line and
the line `" | Its evaluation failed."`: nothing else is printed (no momentum line, no
matrix-element line) and `calculateME` is called exactly once. -/
theorem run_proc_evaluation_failed {Q M D : Type} [NatCast D] (c : Collaborators Q M D)
    (in_pdgs out_pdgs : List Int) (req_s_channels : Finset Int) (q : Q)
    (p_vec : List (List D))
    (hq : c.getProcess in_pdgs out_pdgs req_s_channels = some q)
    (hp : castMomenta c in_pdgs out_pdgs q = some p_vec)
    (hfail : (c.calculateME in_pdgs out_pdgs p_vec req_s_channels [] []).2 = false) :
    ∃ trace, run_proc c in_pdgs out_pdgs req_s_channels = some trace ∧
      stdout trace =
        " -> Process '" ++ proc_string in_pdgs out_pdgs req_s_channels
          ++ "' is available." ++ "\n" ++ " | Its evaluation failed." ++ "\n" ∧
      (trace.filter Action.isCalculateME).length = 1 := by
  refine ⟨_, run_proc_some c in_pdgs out_pdgs req_s_channels q p_vec hq hp, ?_, ?_⟩
  · simp only [hfail, if_true, List.cons_append, List.nil_append, stdout_cons, stdout_nil,
      Action.printed, String.append_empty, String.empty_append, String.append_assoc]
    rfl
  · simp [hfail, List.filter, Action.isCalculateME]

/-- Witness of C3: the process `25 > 21 21` with an accessor whose evaluation fails. -/
theorem run_proc_evaluation_failed_witness :
    (demo false).getProcess [25] [21, 21] ∅ = some () ∧
    castMomenta (demo false) [25] [21, 21] () =
      some [[1, 2, 3, 4], [1, 2, 3, 4], [1, 2, 3, 4]] ∧
    ((demo false).calculateME [25] [21, 21]
      [[1, 2, 3, 4], [1, 2, 3, 4], [1, 2, 3, 4]] ∅ [] []).2 = false ∧
    ∃ trace, run_proc (demo false) [25] [21, 21] ∅ = some trace ∧
      stdout trace =
        " -> Process '" ++ proc_string [25] [21, 21] ∅
          ++ "' is available." ++ "\n" ++ " | Its evaluation failed." ++ "\n" ∧
      (trace.filter Action.isCalculateME).length = 1 :=
  ⟨by decide, by decide, by decide,
    run_proc_evaluation_failed (demo false) [25] [21, 21] ∅ ()
      [[1, 2, 3, 4], [1, 2, 3, 4], [1, 2, 3, 4]] (by decide) (by decide) (by decide)⟩

/-- C5: for an available process whose evaluation succeeds, with `n` external legs, the
output after the `is available.` line is one `" | Momenta:"` line, then exactly `n` momentum
lines numbered `1..n` in order, line `i + 1` showing the four components of `p_vec[i]` in
the order `0, 1, 2, 3`, then exactly one `" | Matrix element : "` line carrying the first
component of the pair returned by `calculateME`. -/
theorem run_proc_success_output {Q M D : Type} [NatCast D] (c : Collaborators Q M D)
    (in_pdgs out_pdgs : List Int) (req_s_channels : Finset Int) (q : Q)
    (p_vec : List (List D))
    (hq : c.getProcess in_pdgs out_pdgs req_s_channels = some q)
    (hp : castMomenta c in_pdgs out_pdgs q = some p_vec)
    (hok : (c.calculateME in_pdgs out_pdgs p_vec req_s_channels [] []).2 = true) :
    ∃ (trace : List (Action Q M D)) (lines : List String),
      run_proc c in_pdgs out_pdgs req_s_channels = some trace ∧
      lines.length = in_pdgs.length + out_pdgs.length ∧
      (∀ (i : Nat) (hi : i < lines.length), ∃ p0 p1 p2 p3,
        p_vec[i]? = some [p0, p1, p2, p3] ∧
        lines[i] = " | " ++ setw 4 (toString (i + 1)) ++ setw 22 (c.sci 14 p0)
          ++ setw 22 (c.sci 14 p1) ++ setw 22 (c.sci 14 p2) ++ setw 22 (c.sci 14 p3)
          ++ "\n") ∧
      stdout trace =
        " -> Process '" ++ proc_string in_pdgs out_pdgs req_s_channels
          ++ "' is available." ++ "\n"
          ++ " | Momenta:" ++ "\n"
          ++ String.join lines
          ++ " | Matrix element : "
          ++ c.sci 17 (c.calculateME in_pdgs out_pdgs p_vec req_s_channels [] []).1
          ++ " GeV^"
          ++ toString (-(2 * ((in_pdgs.length + out_pdgs.length : Nat) : Int) - 8))
          ++ "\n" := by
  obtain ⟨hlen, hrows⟩ := castMomenta_shape c in_pdgs out_pdgs q p_vec hp
  refine ⟨_, (List.range (in_pdgs.length + out_pdgs.length)).map (momentumLine c p_vec),
    run_proc_some c in_pdgs out_pdgs req_s_channels q p_vec hq hp, by simp, ?_, ?_⟩
  · intro i hi
    have hi' : i < p_vec.length := by simpa [hlen] using hi
    obtain ⟨p0, p1, p2, p3, hrow⟩ :=
      list_length_four p_vec[i] (hrows _ (List.getElem_mem hi'))
    refine ⟨p0, p1, p2, p3, ?_, ?_⟩
    · rw [List.getElem?_eq_getElem hi', hrow]
    · simp [momentumLine, List.getD_eq_getElem, hi', hrow]
  · simp only [hok, Bool.true_eq_false, if_false, List.cons_append, List.nil_append,
      stdout_cons, stdout_append, stdout_nil, Action.printed, String.append_empty,
      String.empty_append, String.append_assoc]
    congr 2
    simp [stdout, List.map_map, Function.comp_def, Action.printed]
    rfl

/-- Witness of C5: the process `25 > 21 21` with an accessor whose evaluation succeeds. -/
theorem run_proc_success_output_witness :
    (demo true).getProcess [25] [21, 21] ∅ = some () ∧
    castMomenta (demo true) [25] [21, 21] () =
      some [[1, 2, 3, 4], [1, 2, 3, 4], [1, 2, 3, 4]] ∧
    ((demo true).calculateME [25] [21, 21]
      [[1, 2, 3, 4], [1, 2, 3, 4], [1, 2, 3, 4]] ∅ [] []).2 = true ∧
    ∃ (trace : List (Action Unit Unit Int)) (lines : List String),
      run_proc (demo true) [25] [21, 21] ∅ = some trace ∧
      lines.length = [25].length + [21, 21].length ∧
      (∀ (i : Nat) (hi : i < lines.length), ∃ p0 p1 p2 p3,
        [[1, 2, 3, 4], [1, 2, 3, 4], [1, 2, 3, 4]][i]? = some [p0, p1, p2, p3] ∧
        lines[i] = " | " ++ setw 4 (toString (i + 1)) ++ setw 22 ((demo true).sci 14 p0)
          ++ setw 22 ((demo true).sci 14 p1) ++ setw 22 ((demo true).sci 14 p2)
          ++ setw 22 ((demo true).sci 14 p3) ++ "\n") ∧
      stdout trace =
        " -> Process '" ++ proc_string [25] [21, 21] ∅
          ++ "' is available." ++ "\n"
          ++ " | Momenta:" ++ "\n"
          ++ String.join lines
          ++ " | Matrix element : "
          ++ (demo true).sci 17 ((demo true).calculateME [25] [21, 21]
                [[1, 2, 3, 4], [1, 2, 3, 4], [1, 2, 3, 4]] ∅ [] []).1
          ++ " GeV^"
          ++ toString (-(2 * (([25].length + [21, 21].length : Nat) : Int) - 8))
          ++ "\n" :=
  ⟨by decide, by decide, by decide,
    run_proc_success_output (demo true) [25] [21, 21] ∅ ()
      [[1, 2, 3, 4], [1, 2, 3, 4], [1, 2, 3, 4]] (by decide) (by decide) (by decide)⟩

end CheckSA

namespace MuIC

open Real

/-- The code's polar angle satisfies `pAbs * cos(theta) = pz` for every four-vector. -/
theorem pAbs_mul_cos_theta (v : Vec4) : v.pAbs * Real.cos v.theta = v.zz := by
  unfold Vec4.pAbs Vec4.theta
  have hnn : 0 ≤ v.xx * v.xx + v.yy * v.yy := by nlinarith [mul_self_nonneg v.xx, mul_self_nonneg v.yy]
  set r := Real.sqrt (v.xx * v.xx + v.yy * v.yy) with hr
  have hr2 : r * r = v.xx * v.xx + v.yy * v.yy := Real.mul_self_sqrt hnn
  have habs : Complex.abs ⟨v.zz, r⟩ = Real.sqrt (v.xx * v.xx + v.yy * v.yy + v.zz * v.zz) := by
    rw [Complex.abs_apply, Complex.normSq_mk, hr2]
    congr 1
    ring
  by_cases hz : (⟨v.zz, r⟩ : ℂ) = 0
  · have h1 : v.zz = 0 := congrArg Complex.re hz
    have h2 : r = 0 := congrArg Complex.im hz
    rw [← hr2, h1, h2]
    simp
  · rw [Complex.cos_arg hz, ← habs]
    have : Complex.abs ⟨v.zz, r⟩ ≠ 0 := by simpa using hz
    field_simp

/-- Half-angle formula in the form used by the electron method. -/
theorem cos_sq_half_angle (t : ℝ) : Real.cos (t / 2) ^ 2 = 1 / 2 + Real.cos t / 2 := by
  rw [Real.cos_sq (t / 2)]
  congr 3
  ring

/-- C6: electron-method `Q2`.  For `peIn = (E, 0, 0, -E)` and the massless
`peOut = (E', E' sin θ cos φ, E' sin θ sin φ, E' cos θ)` with `E, E' ≥ 0`, the code's
`Q2rec` (computed from `peOut.theta()`) equals the closed form `4 E E' cos(θ/2)^2` and
equals the exact invariant `Q2 = -(peIn - peOut).m2Calc()`. -/
theorem electron_Q2rec_eq_Q2 (E E' θ φ : ℝ) (_hE : 0 ≤ E) (hE' : 0 ≤ E') :
    Q2rec ⟨0, 0, -E, E⟩ ⟨E' * sin θ * cos φ, E' * sin θ * sin φ, E' * cos θ, E'⟩
        = 4 * E * E' * cos (θ / 2) ^ 2 ∧
    4 * E * E' * cos (θ / 2) ^ 2
        = Q2 ⟨0, 0, -E, E⟩ ⟨E' * sin θ * cos φ, E' * sin θ * sin φ, E' * cos θ, E'⟩ := by
  set peOut : Vec4 := ⟨E' * sin θ * cos φ, E' * sin θ * sin φ, E' * cos θ, E'⟩ with hpe
  have hθ := Real.sin_sq_add_cos_sq θ
  have hφ := Real.sin_sq_add_cos_sq φ
  have hpabs : peOut.pAbs = E' := by
    have : peOut.xx * peOut.xx + peOut.yy * peOut.yy + peOut.zz * peOut.zz = E' * E' := by
      simp only [hpe]
      have : E' * sin θ * cos φ * (E' * sin θ * cos φ) + E' * sin θ * sin φ * (E' * sin θ * sin φ)
          + E' * cos θ * (E' * cos θ)
          = E' * E' * (sin θ ^ 2 * (sin φ ^ 2 + cos φ ^ 2) + cos θ ^ 2) := by ring
      rw [this, hφ, mul_one, hθ, mul_one]
    rw [Vec4.pAbs, this, Real.sqrt_mul_self hE']
  have hcos : E' * cos peOut.theta = E' * cos θ := by
    have := pAbs_mul_cos_theta peOut
    rw [hpabs] at this
    exact this
  constructor
  · simp only [Q2rec, Q2recOf, Vec4.e]
    have h1 := cos_sq_half_angle peOut.theta
    have h2 := cos_sq_half_angle θ
    have e1 : 4 * E * E' * cos (peOut.theta / 2) * cos (peOut.theta / 2)
        = 4 * E * E' * cos (peOut.theta / 2) ^ 2 := by ring
    rw [e1, h1, h2]
    linear_combination (2 * E) * hcos
  · simp only [Q2, pPhoton, Vec4.sub, Vec4.m2Calc, hpe]
    rw [cos_sq_half_angle θ]
    linear_combination (-(E' ^ 2 * sin θ ^ 2)) * hφ - (E' ^ 2) * hθ

end MuIC

namespace MuIC

open Real

/-- C7: electron-method `y`.  For the massless proton `(Ep, 0, 0, Ep)` with `Ep > 0`, the
incoming lepton `(E, 0, 0, -E)` with `E > 0` and a massless outgoing lepton `peOut` (its
energy is the magnitude of its momentum), the code's `yrec` is
`1 - E' (1 - cos θ) / (2 E)` with `E' = peOut.e()`, `θ = peOut.theta()`, and it equals the
exact inelasticity `y = (pProton * pPhoton) / (pProton * peIn)`. -/
theorem electron_yrec_eq_y (Ep E : ℝ) (peOut : Vec4) (hEp : 0 < Ep) (hE : 0 < E)
    (hmassless : peOut.e = peOut.pAbs) :
    yrec ⟨0, 0, -E, E⟩ peOut = 1 - peOut.e * (1 - cos peOut.theta) / (2 * E) ∧
    1 - peOut.e * (1 - cos peOut.theta) / (2 * E)
      = y ⟨0, 0, Ep, Ep⟩ ⟨0, 0, -E, E⟩ peOut := by
  have hcos : peOut.e * cos peOut.theta = peOut.zz := by
    rw [hmassless]
    exact pAbs_mul_cos_theta peOut
  have hEne : E ≠ 0 := ne_of_gt hE
  have hEpne : Ep ≠ 0 := ne_of_gt hEp
  constructor
  · simp only [yrec, yrecOf, Vec4.e]
    field_simp
  · simp only [y, pPhoton, Vec4.sub, Vec4.dot]
    simp only [Vec4.e] at hcos ⊢
    have hden : Ep * E - 0 * 0 - 0 * 0 - Ep * -E = 2 * (Ep * E) := by ring
    rw [hden]
    field_simp
    linear_combination (2 * Ep * E) * hcos

/-- Witness of C7: the outgoing lepton `(1, 0, 0, 1)` along the proton direction. -/
theorem electron_yrec_eq_y_witness :
    (0 : ℝ) < 1 ∧ (0 : ℝ) < 2 ∧ (⟨0, 0, 1, 1⟩ : Vec4).e = (⟨0, 0, 1, 1⟩ : Vec4).pAbs ∧
    (yrec ⟨0, 0, -2, 2⟩ ⟨0, 0, 1, 1⟩
      = 1 - (⟨0, 0, 1, 1⟩ : Vec4).e * (1 - cos (⟨0, 0, 1, 1⟩ : Vec4).theta) / (2 * 2) ∧
    1 - (⟨0, 0, 1, 1⟩ : Vec4).e * (1 - cos (⟨0, 0, 1, 1⟩ : Vec4).theta) / (2 * 2)
      = y ⟨0, 0, 1, 1⟩ ⟨0, 0, -2, 2⟩ ⟨0, 0, 1, 1⟩) :=
  ⟨by norm_num, by norm_num, by simp [Vec4.e, Vec4.pAbs],
    electron_yrec_eq_y 1 2 ⟨0, 0, 1, 1⟩ (by norm_num) (by norm_num)
      (by simp [Vec4.e, Vec4.pAbs])⟩

/-- Witness of C6: a lepton scattered at a right angle. -/
theorem electron_Q2rec_eq_Q2_witness :
    (0 : ℝ) ≤ 2 ∧ (0 : ℝ) ≤ 1 ∧
    (Q2rec ⟨0, 0, -2, 2⟩
        ⟨1 * sin (π / 2) * cos 0, 1 * sin (π / 2) * sin 0, 1 * cos (π / 2), 1⟩
        = 4 * 2 * 1 * cos (π / 2 / 2) ^ 2 ∧
    4 * 2 * 1 * cos (π / 2 / 2) ^ 2
        = Q2 ⟨0, 0, -2, 2⟩
            ⟨1 * sin (π / 2) * cos 0, 1 * sin (π / 2) * sin 0, 1 * cos (π / 2), 1⟩) :=
  ⟨by norm_num, by norm_num, electron_Q2rec_eq_Q2 2 1 (π / 2) 0 (by norm_num) (by norm_num)⟩

/-- For `0 < θ < π` the quantity `1 - cos θ` is positive. -/
theorem one_sub_cos_pos (θ : ℝ) (h0 : 0 < θ) (hπ : θ < π) : 0 < 1 - cos θ := by
  have h1 : cos θ < cos 0 :=
    Real.cos_lt_cos_of_nonneg_of_le_pi (le_refl 0) (le_of_lt hπ) h0
  rw [Real.cos_zero] at h1
  linarith

/-- C8: Jacquet-Blondel against the electron method.  For `E, E' > 0`, `0 < θ < π`, if the
hadronic sums satisfy `sumEPz = 2 E - E' (1 - cos θ)` and
`sumPt2 = (E' sin θ)^2` with `sumEPz ≠ 0`, then `yjb = yrec`, `Q2jb = Q2rec` and
`xjb = xrec`. -/
theorem jb_agrees_with_electron (E E' θ sumPx sumPy sumEPz : ℝ)
    (hE : 0 < E) (hE' : 0 < E') (h0 : 0 < θ) (hπ : θ < π)
    (hEPz : sumEPz = 2 * E - E' * (1 - cos θ))
    (hPt : sumPt2 sumPx sumPy = (E' * sin θ) ^ 2) (hne : sumEPz ≠ 0) :
    yjb sumEPz E = yrecOf E E' θ ∧
    Q2jb (sumPt2 sumPx sumPy) (yjb sumEPz E) = Q2recOf E E' θ ∧
    xjb (Q2jb (sumPt2 sumPx sumPy) (yjb sumEPz E)) (yjb sumEPz E)
      = xrecOf (Q2recOf E E' θ) (yrecOf E E' θ) := by
  have hEne : E ≠ 0 := ne_of_gt hE
  have hc := one_sub_cos_pos θ h0 hπ
  have hs := Real.sin_sq_add_cos_sq θ
  have hy : yjb sumEPz E = yrecOf E E' θ := by
    simp only [yjb, yrecOf, hEPz]
    field_simp
  have hQ : Q2jb (sumPt2 sumPx sumPy) (yjb sumEPz E) = Q2recOf E E' θ := by
    rw [hy, hPt]
    simp only [Q2jb, yrecOf, Q2recOf]
    have e1 : 4 * E * E' * cos (θ / 2) * cos (θ / 2) = 4 * E * E' * cos (θ / 2) ^ 2 := by ring
    rw [e1, cos_sq_half_angle]
    have hden : 1 - (1 - E' * (1 - cos θ) / 2 / E) = E' * (1 - cos θ) / (2 * E) := by
      field_simp
    rw [hden]
    have hne1 : E' * (1 - cos θ) ≠ 0 := ne_of_gt (mul_pos hE' hc)
    field_simp
    linear_combination (4 * E' ^ 2 * E) * hs
  refine ⟨hy, hQ, ?_⟩
  rw [hQ, hy]
  simp only [xjb, xrecOf]
  ring

/-- Witness of C8: beam energy `2`, scattered energy `1`, right-angle scattering. -/
theorem jb_agrees_with_electron_witness :
    (0 : ℝ) < 2 ∧ (0 : ℝ) < 1 ∧ 0 < π / 2 ∧ π / 2 < π ∧
    (3 : ℝ) = 2 * 2 - 1 * (1 - cos (π / 2)) ∧
    sumPt2 1 0 = (1 * sin (π / 2)) ^ 2 ∧ (3 : ℝ) ≠ 0 ∧
    (yjb 3 2 = yrecOf 2 1 (π / 2) ∧
    Q2jb (sumPt2 1 0) (yjb 3 2) = Q2recOf 2 1 (π / 2) ∧
    xjb (Q2jb (sumPt2 1 0) (yjb 3 2)) (yjb 3 2)
      = xrecOf (Q2recOf 2 1 (π / 2)) (yrecOf 2 1 (π / 2))) :=
  ⟨by norm_num, by norm_num, by positivity, by linarith [Real.pi_pos],
    by norm_num, by norm_num [sumPt2], by norm_num,
    jb_agrees_with_electron 2 1 (π / 2) 1 0 3 (by norm_num) (by norm_num) (by positivity)
      (by linarith [Real.pi_pos]) (by norm_num) (by norm_num [sumPt2]) (by norm_num)⟩

end MuIC

namespace MuIC

open Real

/-- Sine and cosine of the hadronic angle `agljb` for a positive transverse sum `T` and a
positive `E - pz` sum `S`: `cos = (T^2 - S^2)/(T^2 + S^2)` and `sin = 2 T S/(T^2 + S^2)`. -/
theorem agljb_cos_sin (T S : ℝ) (hT : 0 < T) (hS : 0 < S) :
    cos (agljb (T ^ 2) S) = (T ^ 2 - S * S) / (T ^ 2 + S * S) ∧
    sin (agljb (T ^ 2) S) = 2 * T * S / (T ^ 2 + S * S) := by
  have hN : 0 < T ^ 2 + S * S := by positivity
  have hle1 : (T ^ 2 - S * S) / (T ^ 2 + S * S) ≤ 1 := by
    rw [div_le_one hN]
    nlinarith [mul_pos hS hS]
  have hge1 : -1 ≤ (T ^ 2 - S * S) / (T ^ 2 + S * S) := by
    rw [le_div_iff₀ hN]
    nlinarith [pow_pos hT 2]
  constructor
  · exact Real.cos_arccos hge1 hle1
  · unfold agljb
    rw [Real.sin_arccos]
    have hsq : 1 - ((T ^ 2 - S * S) / (T ^ 2 + S * S)) ^ 2
        = (2 * T * S / (T ^ 2 + S * S)) ^ 2 := by
      field_simp
      ring
    rw [hsq]
    exact Real.sqrt_sq (by positivity)

/-- C9: double-angle method against the electron method.  For `E, E' > 0`, `0 < θ < π`,
without angular smearing (`muThetaSmear = θ`) and with
`sumEPz = 2 E - E' (1 - cos θ) > 0`, `sumPt2 = (E' sin θ)^2`, the code's `Q2DA`, `yDA` and
`xDA` (computed through `agljb`) equal `Q2rec`, `yrec` and `xrec`. -/
theorem da_agrees_with_electron (E E' θ muThetaSmear sumPx sumPy sumEPz : ℝ)
    (hE : 0 < E) (hE' : 0 < E') (h0 : 0 < θ) (hπ : θ < π)
    (hsmear : muThetaSmear = θ)
    (hEPz : sumEPz = 2 * E - E' * (1 - cos θ)) (hpos : 0 < sumEPz)
    (hPt : sumPt2 sumPx sumPy = (E' * sin θ) ^ 2) :
    Q2DA E (agljb (sumPt2 sumPx sumPy) sumEPz) muThetaSmear = Q2recOf E E' θ ∧
    yDA (agljb (sumPt2 sumPx sumPy) sumEPz) muThetaSmear = yrecOf E E' θ ∧
    xDA (Q2DA E (agljb (sumPt2 sumPx sumPy) sumEPz) muThetaSmear)
        (yDA (agljb (sumPt2 sumPx sumPy) sumEPz) muThetaSmear)
      = xrecOf (Q2recOf E E' θ) (yrecOf E E' θ) := by
  have hsin : 0 < sin θ := Real.sin_pos_of_pos_of_lt_pi h0 hπ
  have hT : 0 < E' * sin θ := mul_pos hE' hsin
  obtain ⟨hcg, hsg⟩ := agljb_cos_sin (E' * sin θ) sumEPz hT hpos
  have hN : 0 < (E' * sin θ) ^ 2 + sumEPz * sumEPz := by positivity
  have hEne : E ≠ 0 := ne_of_gt hE
  have hSne : sumEPz ≠ 0 := ne_of_gt hpos
  have hsne : sin θ ≠ 0 := ne_of_gt hsin
  have hE'ne : E' ≠ 0 := ne_of_gt hE'
  have hD : sin (agljb ((E' * sin θ) ^ 2) sumEPz) + sin θ
        - sin (agljb ((E' * sin θ) ^ 2) sumEPz + θ)
      = 4 * E * sumEPz * sin θ / ((E' * sin θ) ^ 2 + sumEPz * sumEPz) := by
    rw [Real.sin_add, hcg, hsg]
    field_simp
    linear_combination (2 * sumEPz * sin θ) * hEPz
  have hQ : Q2DA E (agljb (sumPt2 sumPx sumPy) sumEPz) muThetaSmear = Q2recOf E E' θ := by
    rw [hsmear, hPt]
    simp only [Q2DA, Q2recOf]
    have e1 : 4 * E * E' * cos (θ / 2) * cos (θ / 2) = 4 * E * E' * cos (θ / 2) ^ 2 := by ring
    rw [e1, cos_sq_half_angle, hD, hsg]
    field_simp
    ring
  have hy : yDA (agljb (sumPt2 sumPx sumPy) sumEPz) muThetaSmear = yrecOf E E' θ := by
    rw [hsmear, hPt]
    simp only [yDA, yrecOf]
    rw [hD, hcg]
    field_simp
    linear_combination (E * sin θ * sumEPz * 4) * hEPz
  refine ⟨hQ, hy, ?_⟩
  rw [hQ, hy]
  simp only [xDA, xrecOf]
  ring

end MuIC

namespace MuIC

open Real

/-- Witness of C9: beam energy `2`, scattered energy `1`, right-angle scattering. -/
theorem da_agrees_with_electron_witness :
    (0 : ℝ) < 2 ∧ (0 : ℝ) < 1 ∧ 0 < π / 2 ∧ π / 2 < π ∧ π / 2 = π / 2 ∧
    (3 : ℝ) = 2 * 2 - 1 * (1 - cos (π / 2)) ∧ (0 : ℝ) < 3 ∧
    sumPt2 1 0 = (1 * sin (π / 2)) ^ 2 ∧
    (Q2DA 2 (agljb (sumPt2 1 0) 3) (π / 2) = Q2recOf 2 1 (π / 2) ∧
    yDA (agljb (sumPt2 1 0) 3) (π / 2) = yrecOf 2 1 (π / 2) ∧
    xDA (Q2DA 2 (agljb (sumPt2 1 0) 3) (π / 2)) (yDA (agljb (sumPt2 1 0) 3) (π / 2))
      = xrecOf (Q2recOf 2 1 (π / 2)) (yrecOf 2 1 (π / 2))) :=
  ⟨by norm_num, by norm_num, by positivity, by linarith [Real.pi_pos], rfl,
    by norm_num, by norm_num, by norm_num [sumPt2],
    da_agrees_with_electron 2 1 (π / 2) (π / 2) 1 0 3 (by norm_num) (by norm_num)
      (by positivity) (by linarith [Real.pi_pos]) rfl (by norm_num) (by norm_num)
      (by norm_num [sumPt2])⟩

/-- Balance identity of a lepton `(E', θ)` against one massless jet `(F, γ)`: transverse
balance and `E - pz` conservation give
`2 E^2 - 2 E F - 2 E E' (1 - cos θ) + E' (1 - cos θ) (E' + F) = 0`. -/
theorem single_jet_balance (E E' F θ γ : ℝ)
    (hbal : E' * sin θ = F * sin γ)
    (hcons : 2 * E = E' * (1 - cos θ) + F * (1 - cos γ)) :
    2 * E ^ 2 - 2 * E * F - 2 * (E' * (1 - cos θ)) * E + E' * (1 - cos θ) * (E' + F) = 0 := by
  have hθ := Real.sin_sq_add_cos_sq θ
  have hγ := Real.sin_sq_add_cos_sq γ
  linear_combination ((2 * E - E' * (1 - cos θ) + F * (1 - cos γ) - 2 * F) / 2) * hcons
    + ((E' * sin θ + F * sin γ) / 2) * hbal - (E' ^ 2 / 2) * hθ + (F ^ 2 / 2) * hγ

/-- C10: mixed (A4) method against the electron method for one massless hadronic jet of
energy `F` and polar angle `γ`.  With `muESmear = E'`, `sumPt2 = (F sin γ)^2`,
`sumEPz = F (1 - cos γ)`, transverse balance `E' sin θ = F sin γ`, conservation
`2 E = E' (1 - cos θ) + F (1 - cos γ)` and `E' + F - 2 E ≠ 0`: the code's
`sqrt(sumPt2)/sin(agljb)` is `F`, `yA4 = (E' - E)/(E' + F - 2 E) = yrec` and
`Q2A4 = 4 E^2 (E - F)/(E' + F - 2 E) + 4 E E' = Q2rec`. -/
theorem a4_agrees_with_electron (E E' F θ γ muESmear sumPx sumPy sumEPz : ℝ)
    (hE : 0 < E) (hE' : 0 < E') (hF : 0 < F) (h0 : 0 < θ) (hπ : θ < π)
    (hγ0 : 0 < γ) (hγπ : γ < π)
    (hsmear : muESmear = E')
    (hPt : sumPt2 sumPx sumPy = (F * sin γ) ^ 2)
    (hEPz : sumEPz = F * (1 - cos γ))
    (hbal : E' * sin θ = F * sin γ)
    (hcons : 2 * E = E' * (1 - cos θ) + F * (1 - cos γ))
    (hne : E' + F - 2 * E ≠ 0) :
    Real.sqrt (sumPt2 sumPx sumPy) / sin (agljb (sumPt2 sumPx sumPy) sumEPz) = F ∧
    yA4 muESmear E (sumPt2 sumPx sumPy) (agljb (sumPt2 sumPx sumPy) sumEPz)
      = (E' - E) / (E' + F - 2 * E) ∧
    (E' - E) / (E' + F - 2 * E) = yrecOf E E' θ ∧
    Q2A4 muESmear E (sumPt2 sumPx sumPy) (agljb (sumPt2 sumPx sumPy) sumEPz)
      = 4 * E ^ 2 * (E - F) / (E' + F - 2 * E) + 4 * E * E' ∧
    4 * E ^ 2 * (E - F) / (E' + F - 2 * E) + 4 * E * E' = Q2recOf E E' θ := by
  have hsγ : 0 < sin γ := Real.sin_pos_of_pos_of_lt_pi hγ0 hγπ
  have hcγ := one_sub_cos_pos γ hγ0 hγπ
  have hsq := Real.sin_sq_add_cos_sq γ
  have hEne : E ≠ 0 := ne_of_gt hE
  have hFne : F ≠ 0 := ne_of_gt hF
  have hagl : agljb (sumPt2 sumPx sumPy) sumEPz = γ := by
    rw [hPt, hEPz]
    unfold agljb
    have hratio : ((F * sin γ) ^ 2 - F * (1 - cos γ) * (F * (1 - cos γ))) /
        ((F * sin γ) ^ 2 + F * (1 - cos γ) * (F * (1 - cos γ))) = cos γ := by
      have hden : (F * sin γ) ^ 2 + F * (1 - cos γ) * (F * (1 - cos γ))
          = 2 * F ^ 2 * (1 - cos γ) := by
        linear_combination (F ^ 2) * hsq
      have hnum : (F * sin γ) ^ 2 - F * (1 - cos γ) * (F * (1 - cos γ))
          = cos γ * (2 * F ^ 2 * (1 - cos γ)) := by
        linear_combination (F ^ 2) * hsq
      have hpos : 0 < 2 * F ^ 2 * (1 - cos γ) := by positivity
      rw [hden, hnum, mul_div_assoc, div_self (ne_of_gt hpos), mul_one]
    rw [hratio]
    exact Real.arccos_cos (le_of_lt hγ0) (le_of_lt hγπ)
  have hsqrt : Real.sqrt (sumPt2 sumPx sumPy) = F * sin γ := by
    rw [hPt]
    exact Real.sqrt_sq (le_of_lt (mul_pos hF hsγ))
  have hFcode : Real.sqrt (sumPt2 sumPx sumPy) / sin (agljb (sumPt2 sumPx sumPy) sumEPz)
      = F := by
    rw [hagl, hsqrt, mul_div_assoc, div_self (ne_of_gt hsγ), mul_one]
  have hG := single_jet_balance E E' F θ γ hbal hcons
  refine ⟨hFcode, ?_, ?_, ?_, ?_⟩
  · simp only [yA4]
    rw [hFcode, hsmear]
  · simp only [yrecOf]
    field_simp
    linear_combination hG
  · simp only [Q2A4]
    rw [hFcode, hsmear]
    ring
  · simp only [Q2recOf]
    have e1 : 4 * E * E' * cos (θ / 2) * cos (θ / 2) = 4 * E * E' * cos (θ / 2) ^ 2 := by ring
    rw [e1, cos_sq_half_angle]
    field_simp
    linear_combination (4 * E) * hG

/-- Witness of C10: lepton and jet of energy `1`, both at the angle `π / 3`, beam energy
`1 / 2`. -/
theorem a4_agrees_with_electron_witness :
    (0 : ℝ) < 1 / 2 ∧ (0 : ℝ) < 1 ∧ 0 < π / 3 ∧ π / 3 < π ∧
    sumPt2 (sin (π / 3)) 0 = (1 * sin (π / 3)) ^ 2 ∧
    (1 : ℝ) * sin (π / 3) = 1 * sin (π / 3) ∧
    2 * (1 / 2 : ℝ) = 1 * (1 - cos (π / 3)) + 1 * (1 - cos (π / 3)) ∧
    (1 : ℝ) + 1 - 2 * (1 / 2) ≠ 0 ∧
    (Real.sqrt (sumPt2 (sin (π / 3)) 0)
        / sin (agljb (sumPt2 (sin (π / 3)) 0) (1 * (1 - cos (π / 3)))) = 1 ∧
    yA4 1 (1 / 2) (sumPt2 (sin (π / 3)) 0)
        (agljb (sumPt2 (sin (π / 3)) 0) (1 * (1 - cos (π / 3))))
      = (1 - 1 / 2) / (1 + 1 - 2 * (1 / 2)) ∧
    ((1 : ℝ) - 1 / 2) / (1 + 1 - 2 * (1 / 2)) = yrecOf (1 / 2) 1 (π / 3) ∧
    Q2A4 1 (1 / 2) (sumPt2 (sin (π / 3)) 0)
        (agljb (sumPt2 (sin (π / 3)) 0) (1 * (1 - cos (π / 3))))
      = 4 * (1 / 2) ^ 2 * (1 / 2 - 1) / (1 + 1 - 2 * (1 / 2)) + 4 * (1 / 2) * 1 ∧
    4 * (1 / 2 : ℝ) ^ 2 * (1 / 2 - 1) / (1 + 1 - 2 * (1 / 2)) + 4 * (1 / 2) * 1
      = Q2recOf (1 / 2) 1 (π / 3)) :=
  ⟨by norm_num, by norm_num, by positivity, by linarith [Real.pi_pos],
    by simp only [sumPt2]; ring, rfl, by rw [Real.cos_pi_div_three]; norm_num, by norm_num,
    a4_agrees_with_electron (1 / 2) 1 1 (π / 3) (π / 3) 1 (sin (π / 3)) 0
      (1 * (1 - cos (π / 3))) (by norm_num) (by norm_num) (by norm_num) (by positivity)
      (by linarith [Real.pi_pos]) (by positivity) (by linarith [Real.pi_pos]) rfl
      (by simp only [sumPt2]; ring) rfl rfl (by rw [Real.cos_pi_div_three]; norm_num)
      (by norm_num)⟩

end MuIC

namespace MuIC

/-! ## The event loop -/

theorem eventLoopFrom_tags {σ K : Type} (next : σ → Bool × σ)
    (body : σ → List (Effect K) × σ) (remaining : Nat) :
    ∀ (iEvent : Nat) (s : σ) (st : Nat × Step K),
      st ∈ (eventLoopFrom next body remaining iEvent s).1 → iEvent ≤ st.1 := by
  induction remaining with
  | zero => intro i s st h; simp [eventLoopFrom] at h
  | succ r ih =>
    intro i s st h
    simp only [eventLoopFrom] at h
    split at h
    · simp only [List.mem_cons] at h
      rcases h with h | h
      · subst h; exact le_refl _
      · exact Nat.le_of_succ_le (ih _ _ _ h)
    · simp only [List.mem_cons, List.mem_append, List.mem_map] at h
      rcases h with h | ⟨e, _, h⟩ | h
      · subst h; exact le_refl _
      · subst h; exact le_refl _
      · exact Nat.le_of_succ_le (ih _ _ _ h)

theorem isNext_next {K : Type} (ok : Bool) : (Step.next ok : Step K).isNext = true := rfl

theorem isNext_effect {K : Type} (e : Effect K) : (Step.effect e).isNext = false := rfl

theorem eventLoopFrom_next_calls {σ K : Type} (next : σ → Bool × σ)
    (body : σ → List (Effect K) × σ) (remaining : Nat) :
    ∀ (iEvent : Nat) (s : σ),
      (((eventLoopFrom next body remaining iEvent s).1.filter (fun st => st.2.isNext)).map
        Prod.fst) = List.range' iEvent remaining := by
  induction remaining with
  | zero => intro i s; simp [eventLoopFrom]
  | succ r ih =>
    intro i s
    simp only [eventLoopFrom]
    split
    · simp [isNext_next, ih, List.range'_succ]
    · have hfil : (List.map (fun e => (i, Step.effect e)) (body (next s).2).1).filter
          (fun st => st.2.isNext) = [] := by
        simp [List.filter_eq_nil_iff, isNext_effect]
      simp [isNext_next, ih, List.range'_succ, List.filter_append, hfil]

theorem eventLoopFrom_skip {σ K : Type} (next : σ → Bool × σ)
    (body : σ → List (Effect K) × σ) (remaining : Nat) :
    ∀ (iEvent : Nat) (s : σ) (i : Nat) (e : Effect K),
      (i, Step.next false) ∈ (eventLoopFrom next body remaining iEvent s).1 →
      (i, Step.effect e) ∉ (eventLoopFrom next body remaining iEvent s).1 := by
  induction remaining with
  | zero => intro iE s i e h; simp [eventLoopFrom] at h
  | succ r ih =>
    intro iE s i e h hmem
    simp only [eventLoopFrom] at h hmem
    split at h
    · rename_i hok
      simp only [hok, if_true, List.mem_cons, Prod.mk.injEq, reduceCtorEq, and_false,
        false_or] at hmem
      simp only [List.mem_cons, Prod.mk.injEq, and_true] at h
      rcases h with h | h
      · subst h
        have := eventLoopFrom_tags next body r _ _ _ hmem
        simp at this
      · exact ih _ _ _ _ h hmem
    · rename_i hok
      simp only [hok, if_false, List.mem_cons, Prod.mk.injEq, reduceCtorEq, and_false,
        false_or, List.mem_append, List.mem_map, Step.effect.injEq] at hmem
      simp only [List.mem_cons, Prod.mk.injEq, Step.next.injEq, Bool.false_eq_true,
        and_false, false_or, List.mem_append, List.mem_map, reduceCtorEq, exists_false]
        at h
      have hi := eventLoopFrom_tags next body r _ _ _ h
      rcases hmem with ⟨e', _, h1, _⟩ | hmem
      · simp only at hi
        omega
      · exact ih _ _ _ _ h hmem

/-- C4: in the event loop of `mainMuIC`, `pythia.next()` is called exactly
`nEvent = 50000` times, once for each index `0, ..., 49999` in order, whatever the
generator returns; and for every index at which it returns `false` the rest of the
iteration is skipped: no effect at all (no histogram fill, no tree entry) belongs to that
index. -/
theorem event_loop_skips_failed_events {σ K : Type} (next : σ → Bool × σ)
    (body : σ → List (Effect K) × σ) (s : σ) :
    ((eventLoop next body s).1.filter (fun st => st.2.isNext)).length = 50000 ∧
    ((eventLoop next body s).1.filter (fun st => st.2.isNext)).map Prod.fst
      = List.range 50000 ∧
    ∀ (i : Nat) (e : Effect K), (i, Step.next false) ∈ (eventLoop next body s).1 →
      (i, Step.effect e) ∉ (eventLoop next body s).1 := by
  have hcalls := eventLoopFrom_next_calls next body nEvent 0 s
  refine ⟨?_, ?_, ?_⟩
  · have := congrArg List.length hcalls
    simpa [eventLoop, nEvent] using this
  · rw [List.range_eq_range']
    exact hcalls
  · intro i e
    exact eventLoopFrom_skip next body nEvent 0 s i e

end MuIC

namespace MuIC

/-- Witness of C4: a generator that never delivers an event, with an analysis that would
write a tree entry: index `0` is a failed call and the conclusions hold for this loop. -/
theorem event_loop_skips_failed_events_witness :
    (0, Step.next false) ∈
      (eventLoop (fun s : Unit => (false, s))
        (fun s => ([(Effect.treeFill : Effect Int)], s)) ()).1 ∧
    (((eventLoop (fun s : Unit => (false, s))
        (fun s => ([(Effect.treeFill : Effect Int)], s)) ()).1.filter
          (fun st => st.2.isNext)).length = 50000 ∧
    ((eventLoop (fun s : Unit => (false, s))
        (fun s => ([(Effect.treeFill : Effect Int)], s)) ()).1.filter
          (fun st => st.2.isNext)).map Prod.fst = List.range 50000 ∧
    ∀ (i : Nat) (e : Effect Int),
      (i, Step.next false) ∈ (eventLoop (fun s : Unit => (false, s))
        (fun s => ([(Effect.treeFill : Effect Int)], s)) ()).1 →
      (i, Step.effect e) ∉ (eventLoop (fun s : Unit => (false, s))
        (fun s => ([(Effect.treeFill : Effect Int)], s)) ()).1) :=
  ⟨by
      unfold eventLoop nEvent
      rw [show (50000 : Nat) = 49999 + 1 from rfl]
      rw [eventLoopFrom]
      exact List.mem_cons_self _ _,
    event_loop_skips_failed_events (fun s : Unit => (false, s))
      (fun s => ([(Effect.treeFill : Effect Int)], s)) ()⟩

end MuIC

namespace MuIC

open Real

/-! ## Generator-level invariants and the momentum axis -/

/-- C11: the generator-level quantities satisfy the standard DIS relation.  For all
four-vectors `pProton, peIn, peOut` with `pProton * pPhoton ≠ 0` and `Q2 ≠ 0`
(`pPhoton = peIn - peOut`, `*` the Minkowski product), the code's `Q2`, `x` and `W2`
satisfy `W2 = pProton.m2Calc() + Q2 (1 - x) / x`. -/
theorem W2_standard_relation (pProton peIn peOut : Vec4)
    (hPq : pProton.dot (pPhoton peIn peOut) ≠ 0) (hQ2 : Q2 peIn peOut ≠ 0) :
    W2 pProton peIn peOut
      = pProton.m2Calc + Q2 peIn peOut * (1 - x pProton peIn peOut) / x pProton peIn peOut := by
  have hx : x pProton peIn peOut ≠ 0 := by
    unfold x
    exact div_ne_zero hQ2 (mul_ne_zero two_ne_zero hPq)
  have hexp : W2 pProton peIn peOut
      = pProton.m2Calc + 2 * pProton.dot (pPhoton peIn peOut) - Q2 peIn peOut := by
    simp only [W2, Q2, Vec4.m2Calc, Vec4.add, Vec4.dot]
    ring
  have hquot : Q2 peIn peOut / x pProton peIn peOut
      = 2 * pProton.dot (pPhoton peIn peOut) := by
    unfold x
    field_simp
  rw [hexp, mul_sub, mul_one, sub_div, hquot, mul_div_assoc, div_self hx, mul_one]
  ring

/-- Witness of C11: proton `(1, 0, 0, 1)`, incoming lepton `(2, 0, 0, -2)`, outgoing lepton
`(1, 1, 0, 0)`. -/
theorem W2_standard_relation_witness :
    (⟨0, 0, 1, 1⟩ : Vec4).dot (pPhoton ⟨0, 0, -2, 2⟩ ⟨1, 0, 0, 1⟩) ≠ 0 ∧
    Q2 ⟨0, 0, -2, 2⟩ ⟨1, 0, 0, 1⟩ ≠ 0 ∧
    W2 ⟨0, 0, 1, 1⟩ ⟨0, 0, -2, 2⟩ ⟨1, 0, 0, 1⟩
      = (⟨0, 0, 1, 1⟩ : Vec4).m2Calc
        + Q2 ⟨0, 0, -2, 2⟩ ⟨1, 0, 0, 1⟩
          * (1 - x ⟨0, 0, 1, 1⟩ ⟨0, 0, -2, 2⟩ ⟨1, 0, 0, 1⟩)
          / x ⟨0, 0, 1, 1⟩ ⟨0, 0, -2, 2⟩ ⟨1, 0, 0, 1⟩ :=
  ⟨by norm_num [Vec4.dot, pPhoton, Vec4.sub],
    by norm_num [Q2, pPhoton, Vec4.sub, Vec4.m2Calc],
    W2_standard_relation ⟨0, 0, 1, 1⟩ ⟨0, 0, -2, 2⟩ ⟨1, 0, 0, 1⟩
      (by norm_num [Vec4.dot, pPhoton, Vec4.sub])
      (by norm_num [Q2, pPhoton, Vec4.sub, Vec4.m2Calc])⟩

/-- For every momentum `(px, py, pz)` with `pT = sqrt(px^2 + py^2) > 0` and
`eta = asinh(pz / pT)`: `pT cosh(eta) = sqrt(px^2 + py^2 + pz^2)`, which is the value of
`petaFillY` and of `pAbs()`; the energy component plays no role. -/
theorem pT_cosh_eta_eq_pAbs (px py pz e : ℝ)
    (hpT : 0 < Real.sqrt (px ^ 2 + py ^ 2)) :
    Real.sqrt (px ^ 2 + py ^ 2) * cosh (arsinh (pz / Real.sqrt (px ^ 2 + py ^ 2)))
      = Real.sqrt (px ^ 2 + py ^ 2 + pz ^ 2) ∧
    petaFillY ⟨px, py, pz, e⟩ = Real.sqrt (px ^ 2 + py ^ 2 + pz ^ 2) ∧
    petaFillY ⟨px, py, pz, e⟩ = (⟨px, py, pz, e⟩ : Vec4).pAbs := by
  have hnn : 0 ≤ px ^ 2 + py ^ 2 := by positivity
  have hsq : Real.sqrt (px ^ 2 + py ^ 2) ^ 2 = px ^ 2 + py ^ 2 := Real.sq_sqrt hnn
  have hmain : Real.sqrt (px ^ 2 + py ^ 2)
      * cosh (arsinh (pz / Real.sqrt (px ^ 2 + py ^ 2)))
      = Real.sqrt (px ^ 2 + py ^ 2 + pz ^ 2) := by
    rw [Real.cosh_arsinh, ← Real.sqrt_mul hnn]
    congr 1
    have hne : Real.sqrt (px ^ 2 + py ^ 2) ≠ 0 := ne_of_gt hpT
    rw [div_pow, hsq]
    have hne2 : px ^ 2 + py ^ 2 ≠ 0 := by
      intro h0
      rw [h0, Real.sqrt_zero] at hpT
      exact lt_irrefl _ hpT
    field_simp
  have hpow : px * px + py * py = px ^ 2 + py ^ 2 := by ring
  refine ⟨hmain, ?_, ?_⟩
  · simp only [petaFillY, Vec4.pT, Vec4.eta, hpow]
    exact hmain
  · simp only [petaFillY, Vec4.pT, Vec4.eta, Vec4.pAbs, hpow]
    rw [hmain]
    congr 1
    ring

end MuIC

namespace CheckSA

/-! ## `run_proc`: the evaluation call and the copy loop -/

theorem filter_isCalculateME_prints {Q M D : Type} (l : List String) :
    (l.map (fun t => (Action.print t : Action Q M D))).filter Action.isCalculateME = [] := by
  induction l with
  | nil => rfl
  | cons a l ih => simp [List.filter, Action.isCalculateME, ih]

/-- The calls of `calculateME` in a run that reaches the evaluation. -/
theorem run_proc_calculateME_once_aux {Q M D : Type} [NatCast D] (c : Collaborators Q M D)
    (in_pdgs out_pdgs : List Int) (req_s_channels : Finset Int) (q : Q)
    (p_vec : List (List D))
    (hq : c.getProcess in_pdgs out_pdgs req_s_channels = some q)
    (hp : castMomenta c in_pdgs out_pdgs q = some p_vec) :
    ∃ trace, run_proc c in_pdgs out_pdgs req_s_channels = some trace ∧
      trace.filter Action.isCalculateME
        = [Action.callCalculateME in_pdgs out_pdgs p_vec req_s_channels [] []] := by
  refine ⟨_, run_proc_some c in_pdgs out_pdgs req_s_channels q p_vec hq hp, ?_⟩
  have hlines := filter_isCalculateME_prints (Q := Q) (M := M) (D := D)
    ((List.range (in_pdgs.length + out_pdgs.length)).map (momentumLine c p_vec))
  rw [List.map_map] at hlines
  cases hres : (c.calculateME in_pdgs out_pdgs p_vec req_s_channels [] []).2
  · simp [List.filter, Action.isCalculateME]
  · simp only [Bool.true_eq_false, if_false, List.filter_append, List.filter_cons,
      Action.isCalculateME, List.filter_nil, Function.comp_def] at hlines ⊢
    simp [hlines]

/-- C16: a run of `run_proc` that reaches the evaluation (the process is available and the
copy loop stays inside the data of `get_momenta`) calls `calculateME` exactly once, with
the caller's `in_pdgs`, `out_pdgs` and `req_s_channels` unchanged, the copied momenta, an
empty `colors` vector and an empty `helicities` vector. -/
theorem run_proc_calculateME_once {Q M D : Type} [NatCast D] (c : Collaborators Q M D)
    (in_pdgs out_pdgs : List Int) (req_s_channels : Finset Int) (q : Q)
    (p_vec : List (List D))
    (hq : c.getProcess in_pdgs out_pdgs req_s_channels = some q)
    (hp : castMomenta c in_pdgs out_pdgs q = some p_vec) :
    ∃ trace, run_proc c in_pdgs out_pdgs req_s_channels = some trace ∧
      trace.filter Action.isCalculateME
        = [Action.callCalculateME in_pdgs out_pdgs p_vec req_s_channels [] []] :=
  run_proc_calculateME_once_aux c in_pdgs out_pdgs req_s_channels q p_vec hq hp

/-- Witness of C16: the process `25 > 21 21` of `main`. -/
theorem run_proc_calculateME_once_witness :
    (demo true).getProcess [25] [21, 21] ∅ = some () ∧
    castMomenta (demo true) [25] [21, 21] () =
      some [[1, 2, 3, 4], [1, 2, 3, 4], [1, 2, 3, 4]] ∧
    ∃ trace, run_proc (demo true) [25] [21, 21] ∅ = some trace ∧
      trace.filter Action.isCalculateME
        = [Action.callCalculateME [25] [21, 21] [[1, 2, 3, 4], [1, 2, 3, 4], [1, 2, 3, 4]]
            ∅ [] []] :=
  ⟨by decide, by decide,
    run_proc_calculateME_once (demo true) [25] [21, 21] ∅ ()
      [[1, 2, 3, 4], [1, 2, 3, 4], [1, 2, 3, 4]] (by decide) (by decide)⟩

theorem copyRow_some {D : Type} (p : List (List D)) (i : Nat) (row pi : List D)
    (hpi : p[i]? = some pi) (hlen : 4 ≤ pi.length) (hrow : row.length = 4) :
    copyRow p i row = some (pi.take 4) := by
  obtain ⟨a, b, c, d, rfl⟩ := list_length_four row hrow
  match pi, hlen with
  | x0 :: x1 :: x2 :: x3 :: rest, _ =>
    simp [copyRow, List.range, List.range.loop, hpi]

theorem copyMomenta_prefix {D : Type} (n : Nat) (p p_vec : List (List D))
    (hn : p_vec.length = n) (hrows : ∀ row ∈ p_vec, row.length = 4)
    (hp : n ≤ p.length) (hcols : ∀ row ∈ p, 4 ≤ row.length) :
    ∀ k, k ≤ n → ∃ pv, copyMomenta k p p_vec = some pv ∧ pv.length = n ∧
      (∀ row ∈ pv, row.length = 4) ∧
      ∀ i, i < k → pv[i]? = (p[i]?).map (fun r => r.take 4) := by
  intro k
  induction k with
  | zero =>
    intro _
    exact ⟨p_vec, by simp [copyMomenta], hn, hrows, by intro i hi; omega⟩
  | succ k ih =>
    intro hk
    obtain ⟨pv, hpv, hlen, hrw, hpre⟩ := ih (Nat.le_of_succ_le hk)
    have hk1 : k < pv.length := by omega
    have hk2 : k < p.length := by omega
    have hrowk : (pv[k]).length = 4 := hrw _ (List.getElem_mem hk1)
    have hcopy := copyRow_some p k pv[k] p[k] (List.getElem?_eq_getElem hk2)
      (hcols _ (List.getElem_mem hk2)) hrowk
    refine ⟨pv.set k (p[k].take 4), ?_, by simpa using hlen, ?_, ?_⟩
    · unfold copyMomenta at hpv ⊢
      rw [List.range_succ, List.foldlM_append, hpv]
      simp [List.getElem?_eq_getElem hk1, hcopy]
    · intro r hr
      rcases List.mem_or_eq_of_mem_set hr with h | h
      · exact hrw r h
      · subst h
        have := hcols _ (List.getElem_mem hk2)
        simp [List.length_take]
        omega
    · intro i hi
      by_cases hik : i = k
      · subst hik
        simp [List.getElem?_set, hk1, List.getElem?_eq_getElem hk2]
      · have hlt : i < k := by omega
        rw [List.getElem?_set_ne (Ne.symm hik)]
        exact hpre i hlt

/-- C17: provided `get_momenta` returns at least `n = in_pdgs.size() + out_pdgs.size()`
arrays, each of at least 4 doubles, every index of the copy loop is in bounds (the loop
completes), `p_vec` then has exactly `n` rows of exactly 4 entries with
`p_vec[i][j] = p[i][j]` for all `i < n`, `j < 4`, and this `p_vec` is the momentum argument
of the call of `calculateME`. -/
theorem run_proc_copy_in_bounds {Q M D : Type} [NatCast D] (c : Collaborators Q M D)
    (in_pdgs out_pdgs : List Int) (req_s_channels : Finset Int) (q : Q)
    (hq : c.getProcess in_pdgs out_pdgs req_s_channels = some q)
    (hcount : in_pdgs.length + out_pdgs.length
      ≤ (c.get_momenta in_pdgs.length ((1500 : Nat) : D) (c.getMasses q)).length)
    (hsize : ∀ arr ∈ c.get_momenta in_pdgs.length ((1500 : Nat) : D) (c.getMasses q),
      4 ≤ arr.length) :
    ∃ p_vec, castMomenta c in_pdgs out_pdgs q = some p_vec ∧
      p_vec.length = in_pdgs.length + out_pdgs.length ∧
      (∀ row ∈ p_vec, row.length = 4) ∧
      (∀ i j, i < in_pdgs.length + out_pdgs.length → j < 4 →
        ∃ v, (p_vec[i]?).bind (fun row => row[j]?) = some v ∧
          ((c.get_momenta in_pdgs.length ((1500 : Nat) : D) (c.getMasses q))[i]?).bind
            (fun arr => arr[j]?) = some v) ∧
      ∃ trace, run_proc c in_pdgs out_pdgs req_s_channels = some trace ∧
        trace.filter Action.isCalculateME
          = [Action.callCalculateME in_pdgs out_pdgs p_vec req_s_channels [] []] := by
  obtain ⟨pv, hpv, hlen, hrw, hpre⟩ :=
    copyMomenta_prefix (in_pdgs.length + out_pdgs.length)
      (c.get_momenta in_pdgs.length ((1500 : Nat) : D) (c.getMasses q))
      (List.replicate (in_pdgs.length + out_pdgs.length) (List.replicate 4 ((0 : Nat) : D)))
      (by simp)
      (by intro row hrow; rw [List.eq_of_mem_replicate hrow]; simp)
      hcount hsize (in_pdgs.length + out_pdgs.length) (le_refl _)
  have hcast : castMomenta c in_pdgs out_pdgs q = some pv := hpv
  refine ⟨pv, hcast, hlen, hrw, ?_,
    run_proc_calculateME_once_aux c in_pdgs out_pdgs req_s_channels q pv hq hcast⟩
  intro i j hi hj
  have hi2 : i < (c.get_momenta in_pdgs.length ((1500 : Nat) : D) (c.getMasses q)).length :=
    by omega
  have hj2 : j < ((c.get_momenta in_pdgs.length ((1500 : Nat) : D)
      (c.getMasses q))[i]).length := by
    have := hsize _ (List.getElem_mem hi2)
    omega
  refine ⟨((c.get_momenta in_pdgs.length ((1500 : Nat) : D) (c.getMasses q))[i])[j], ?_, ?_⟩
  · rw [hpre i hi, List.getElem?_eq_getElem hi2]
    simp [List.getElem?_take, hj, List.getElem?_eq_getElem hj2]
  · rw [List.getElem?_eq_getElem hi2, Option.some_bind, List.getElem?_eq_getElem hj2]

/-- Witness of C17: the process `25 > 21 21` of `main`; here RAMBO hands back three arrays
of five doubles. -/
theorem run_proc_copy_in_bounds_witness :
    (demo true).getProcess [25] [21, 21] ∅ = some () ∧
    [25].length + [21, 21].length
      ≤ ((demo true).get_momenta [25].length ((1500 : Nat) : Int)
          ((demo true).getMasses ())).length ∧
    (∀ arr ∈ (demo true).get_momenta [25].length ((1500 : Nat) : Int)
        ((demo true).getMasses ()), 4 ≤ arr.length) ∧
    ∃ p_vec, castMomenta (demo true) [25] [21, 21] () = some p_vec ∧
      p_vec.length = [25].length + [21, 21].length ∧
      (∀ row ∈ p_vec, row.length = 4) ∧
      (∀ i j, i < [25].length + [21, 21].length → j < 4 →
        ∃ v, (p_vec[i]?).bind (fun row => row[j]?) = some v ∧
          (((demo true).get_momenta [25].length ((1500 : Nat) : Int)
            ((demo true).getMasses ()))[i]?).bind (fun arr => arr[j]?) = some v) ∧
      ∃ trace, run_proc (demo true) [25] [21, 21] ∅ = some trace ∧
        trace.filter Action.isCalculateME
          = [Action.callCalculateME [25] [21, 21] p_vec ∅ [] []] :=
  ⟨by decide, by decide, by decide,
    run_proc_copy_in_bounds (demo true) [25] [21, 21] ∅ () (by decide) (by decide)
      (by decide)⟩

end CheckSA

namespace MuIC

open Real

/-! ## The analysis of one event: which histograms are filled -/

theorem fillNames_append (a b : List (Effect ℝ)) :
    fillNames (a ++ b) = fillNames a ++ fillNames b := by
  simp [fillNames, List.filterMap_append]

theorem fillNames_resFills (sfx : String) (a b c d e f : ℝ) :
    fillNames (resFills sfx a b c d e f) = familyNames sfx := rfl

theorem fillNames_resFills3D (sfx : String) (a b c d e f : ℝ) :
    fillNames (resFills3D sfx a b c d e f) = family3DNames sfx := rfl

theorem fillNames_muonSmearEffects (peOut : Vec4) :
    fillNames (muonSmearEffects peOut) = [] := rfl

/-- The histograms filled before the cut. -/
theorem fillNames_kinematicFills (pProton peIn peOut p6 : Vec4) :
    fillNames (kinematicFills pProton peIn peOut p6)
      = ["Qhist", "Whist", "xhist", "yhist", "pTehist", "Q2xhist"]
        ++ (if |p6.eta| < 6 then ["Q2xhist_eta"] else []) := by
  unfold kinematicFills
  rw [fillNames_append]
  split <;> rfl

theorem fillNames_chargedBlock (rnd : Nat → ℝ) (pmass : ℝ) (s : Smear) :
    fillNames (chargedBlock rnd pmass s).effects = fillNames s.effects := by
  simp [chargedBlock, fillNames_append, fillNames]

theorem fillNames_caloBlock (eRes : String) (rnd : Nat → ℝ) (s : Smear) :
    fillNames (caloBlock eRes rnd s).effects = fillNames s.effects := by
  simp [caloBlock, fillNames_append, fillNames]

/-- The smearing of a particle fills no histogram. -/
theorem fillNames_smearParticle (rnd : Nat → ℝ) (drawn : Nat) (part : Particle) :
    fillNames (smearParticle rnd drawn part).effects = [] := by
  unfold smearParticle
  simp only []
  split <;> split <;> split <;>
    simp only [fillNames_chargedBlock, fillNames_caloBlock] <;> rfl

theorem fillNames_particleStep (rnd : Nat → ℝ) (pT6 : ℝ) (st : LoopState)
    (part : Particle) :
    fillNames (particleStep rnd pT6 st part).effects
      = fillNames st.effects ++ particleFillNames part := by
  unfold particleStep particleFillNames
  simp only []
  by_cases hsel : part.isFinal = true ∧ part.id ≠ 13
  · rw [if_pos hsel, if_pos hsel]
    simp only [fillNames_append, fillNames_smearParticle, List.append_nil, List.append_assoc]
    split <;> rfl
  · rw [if_neg hsel, if_neg hsel]
    simp only [fillNames_append, List.append_nil]
    split <;> rfl

theorem fillNames_particleLoop (rnd : Nat → ℝ) (pT6 : ℝ) (event : List Particle) :
    ∀ st : LoopState,
      fillNames (event.foldl (particleStep rnd pT6) st).effects
        = fillNames st.effects ++ event.flatMap particleFillNames := by
  induction event with
  | nil => intro st; simp
  | cons part rest ih =>
    intro st
    rw [List.foldl_cons, ih, fillNames_particleStep, List.flatMap_cons, List.append_assoc]

theorem fillNames_hadronicFills (a b c : ℝ) (all eta4 eta5 : Hadronic) (nMult : Nat) :
    fillNames (hadronicFills a b c all eta4 eta5 nMult) = hadronicFillNames := rfl

/-- The histograms filled by the analysis of an event that passes the cut, in order. -/
theorem fillNames_analyse_pass (rnd : Nat → ℝ) (drawn : Nat) (event : List Particle)
    (hpass : passesYCut (yrec (entry event 4).p (entry event 6).p)) :
    fillNames (analyse rnd drawn event).effects
      = ["Qhist", "Whist", "xhist", "yhist", "pTehist", "Q2xhist"]
        ++ (if |(entry event 6).p.eta| < 6 then ["Q2xhist_eta"] else [])
        ++ (familyNames "" ++ family3DNames "" ++ ["petamuhist"]
              ++ event.flatMap particleFillNames ++ hadronicFillNames) := by
  unfold passesYCut at hpass
  unfold analyse
  simp only []
  rw [if_neg hpass]
  simp only [fillNames_append, fillNames_muonSmearEffects, fillNames_kinematicFills,
    List.nil_append, fillNames_resFills, fillNames_resFills3D, fillNames_hadronicFills,
    particleLoop, fillNames_particleLoop, List.append_assoc]
  rfl

/-- The histograms filled by the analysis of an event that the cut rejects, in order. -/
theorem fillNames_analyse_reject (rnd : Nat → ℝ) (drawn : Nat) (event : List Particle)
    (hrej : ¬ passesYCut (yrec (entry event 4).p (entry event 6).p)) :
    fillNames (analyse rnd drawn event).effects
      = ["Qhist", "Whist", "xhist", "yhist", "pTehist", "Q2xhist"]
        ++ (if |(entry event 6).p.eta| < 6 then ["Q2xhist_eta"] else []) := by
  unfold passesYCut at hrej
  rw [not_not] at hrej
  unfold analyse
  simp only []
  rw [if_pos hrej]
  simp only [fillNames_append, fillNames_muonSmearEffects, fillNames_kinematicFills,
    List.nil_append]

end MuIC

namespace MuIC

open Real

/-! ## The small events -/

theorem mem_fillNames (hist : String) (effects : List (Effect ℝ)) :
    hist ∈ fillNames effects ↔ ∃ args, Effect.fill hist args ∈ effects := by
  unfold fillNames
  rw [List.mem_filterMap]
  constructor
  · rintro ⟨e, he, hm⟩
    cases e with
    | fill h args =>
      simp only [Option.some.injEq] at hm
      subst hm
      exact ⟨args, he⟩
    | treeFill => simp at hm
    | setParameter f i v => simp at hm
    | getRandom f => simp at hm
  · rintro ⟨args, he⟩
    exact ⟨_, he, rfl⟩

theorem cos_theta_muonOut : Real.cos muonOut.p.theta = 0 := by
  have h := pAbs_mul_cos_theta muonOut.p
  have hp : muonOut.p.pAbs = 1 := by
    simp [muonOut, Vec4.pAbs]
  rw [hp, one_mul] at h
  rw [h]
  rfl

theorem yrec_small_event : yrec muonIn.p muonOut.p = 3 / 4 := by
  unfold yrec yrecOf
  rw [cos_theta_muonOut]
  simp only [muonIn, muonOut, Vec4.e]
  norm_num

theorem passesYCut_small_event : passesYCut (yrec muonIn.p muonOut.p) := by
  rw [yrec_small_event]
  unfold passesYCut
  norm_num

theorem eta_muonOut : muonOut.p.eta = 0 := by
  simp [muonOut, Vec4.eta]

theorem eta_transverse (e : ℝ) : (⟨0, 1, 0, e⟩ : Vec4).eta = 0 := by
  simp [Vec4.eta]

/-- The histograms filled by the analysis of `fullEvent`. -/
theorem fillNames_fullEvent (rnd : Nat → ℝ) (drawn : Nat) :
    fillNames (analyse rnd drawn fullEvent).effects
      = ["Qhist", "Whist", "xhist", "yhist", "pTehist", "Q2xhist", "Q2xhist_eta"]
        ++ (familyNames "" ++ family3DNames "" ++ ["petamuhist"]
              ++ ["pTrhist", "pTdhist", "petahadhist"] ++ hadronicFillNames) := by
  have hpass : passesYCut (yrec (entry fullEvent 4).p (entry fullEvent 6).p) :=
    passesYCut_small_event
  rw [fillNames_analyse_pass rnd drawn fullEvent hpass]
  have h6 : (entry fullEvent 6).p.eta = 0 := eta_muonOut
  have hloop : fullEvent.flatMap particleFillNames = ["pTrhist", "pTdhist", "petahadhist"] := by
    simp [fullEvent, hardProcess, particleFillNames, Particle.vacuum, beamProton, muonIn,
      muonOut, radiated, pion]
  rw [h6, hloop]
  simp

set_option maxRecDepth 1000000 in
theorem written_subset_fullEvent :
    ∀ hist ∈ writeCalls,
      hist ∈ ["Qhist", "Whist", "xhist", "yhist", "pTehist", "Q2xhist", "Q2xhist_eta"]
        ++ (familyNames "" ++ family3DNames "" ++ ["petamuhist"]
              ++ ["pTrhist", "pTdhist", "petahadhist"] ++ hadronicFillNames) := by
  decide

set_option maxRecDepth 1000000 in
theorem static_fills_subset_written :
    ∀ hist ∈ ["Qhist", "Whist", "xhist", "yhist", "pTehist", "Q2xhist", "Q2xhist_eta",
        "pTrhist", "pTdhist", "petahadhist", "petamuhist"]
        ++ familyNames "" ++ family3DNames "" ++ hadronicFillNames,
      hist ∈ writeCalls := by
  decide

set_option maxRecDepth 1000000 in
theorem written_subset_booked : ∀ hist ∈ writeCalls, hist ∈ booked := by
  decide

end MuIC

namespace MuIC

open Real

/-- C12: a histogram is written to the output file if and only if it is filled somewhere
in the event loop.  `hist` has a `Write()` call after the loop exactly when the analysis of
some event makes a `Fill` call on it; in particular every filled histogram is written and
no histogram that is never filled is written.  Every written histogram is a booked one. -/
theorem histograms_written_iff_filled :
    (∀ hist : String, hist ∈ writeCalls ↔
      ∃ (rnd : Nat → ℝ) (drawn : Nat) (event : List Particle) (args : List ℝ),
        Effect.fill hist args ∈ (analyse rnd drawn event).effects) ∧
    (∀ hist ∈ writeCalls, hist ∈ booked) := by
  refine ⟨fun hist => ⟨?_, ?_⟩, written_subset_booked⟩
  · intro hw
    have hmem : hist ∈ fillNames (analyse (fun _ => 0) 0 fullEvent).effects := by
      rw [fillNames_fullEvent]
      exact written_subset_fullEvent hist hw
    obtain ⟨args, hargs⟩ := (mem_fillNames hist _).mp hmem
    exact ⟨fun _ => 0, 0, fullEvent, args, hargs⟩
  · rintro ⟨rnd, drawn, event, args, hfill⟩
    have hmem : hist ∈ fillNames (analyse rnd drawn event).effects :=
      (mem_fillNames hist _).mpr ⟨args, hfill⟩
    apply static_fills_subset_written
    by_cases hpass : passesYCut (yrec (entry event 4).p (entry event 6).p)
    · rw [fillNames_analyse_pass rnd drawn event hpass] at hmem
      simp only [List.mem_append, List.mem_flatMap, particleFillNames] at hmem ⊢
      rcases hmem with (h | h) | ((((h | h) | h) | ⟨part, _, h⟩) | h)
      · simp only [List.mem_cons, List.mem_singleton, List.not_mem_nil, or_false] at h ⊢
        tauto
      · split at h
        · simp only [List.mem_singleton] at h
          subst h
          simp
        · simp at h
      · exact Or.inl (Or.inl (Or.inr h))
      · exact Or.inl (Or.inr h)
      · simp only [List.mem_singleton] at h
        subst h
        simp
      · rcases h with h | h
        · split at h
          · simp only [List.mem_cons, List.mem_singleton, List.not_mem_nil, or_false] at h
            rcases h with h | h <;> subst h <;> simp
          · simp at h
        · split at h
          · simp only [List.mem_singleton] at h
            subst h
            simp
          · simp at h
      · exact Or.inr h
    · rw [fillNames_analyse_reject rnd drawn event hpass] at hmem
      simp only [List.mem_append] at hmem ⊢
      rcases hmem with h | h
      · simp only [List.mem_cons, List.mem_singleton, List.not_mem_nil, or_false] at h ⊢
        tauto
      · split at h
        · simp only [List.mem_singleton] at h
          subst h
          simp
        · simp at h

end MuIC

namespace MuIC

open Real

/-! ## The counter `nMult` and the histogram `Nch` -/

theorem fillsOf_append (hist : String) (a b : List (Effect ℝ)) :
    fillsOf hist (a ++ b) = fillsOf hist a ++ fillsOf hist b := by
  simp [fillsOf, List.filterMap_append]

theorem fillsOf_eq_nil (hist : String) (effects : List (Effect ℝ))
    (hn : hist ∉ fillNames effects) : fillsOf hist effects = [] := by
  unfold fillsOf
  rw [List.filterMap_eq_nil_iff]
  intro e he
  cases e with
  | fill h args =>
    have hne : h ≠ hist := by
      intro heq
      subst heq
      exact hn ((mem_fillNames h effects).mpr ⟨args, he⟩)
    simp [hne]
  | treeFill => rfl
  | setParameter f i v => rfl
  | getRandom f => rfl

theorem nMult_particleStep (rnd : Nat → ℝ) (pT6 : ℝ) (st : LoopState) (part : Particle) :
    (particleStep rnd pT6 st part).sums.nMult
      = st.sums.nMult + nMultOf [part] := by
  unfold particleStep nMultOf
  simp only []
  by_cases hsel : part.isFinal = true ∧ part.id ≠ 13
  · rw [if_pos hsel]
    by_cases heta : |part.p.eta| < 5
    · simp [addToSums, heta, hsel.1, hsel.2, List.filter]
    · simp [addToSums, heta, hsel.1, hsel.2, List.filter]
  · rw [if_neg hsel]
    have hdec : decide (part.isFinal = true ∧ part.id ≠ 13 ∧ |part.p.eta| < 5) = false := by
      rw [decide_eq_false_iff_not]
      intro h
      exact hsel ⟨h.1, h.2.1⟩
    simp [List.filter, hdec]

theorem nMultOf_cons (part : Particle) (rest : List Particle) :
    nMultOf (part :: rest) = nMultOf [part] + nMultOf rest := by
  unfold nMultOf
  by_cases h : part.isFinal = true ∧ part.id ≠ 13 ∧ |part.p.eta| < 5
  · simp [List.filter, h]
    omega
  · have hdec : decide (part.isFinal = true ∧ part.id ≠ 13 ∧ |part.p.eta| < 5) = false := by
      rw [decide_eq_false_iff_not]
      exact h
    simp [List.filter, hdec]

theorem nMult_particleLoop (rnd : Nat → ℝ) (pT6 : ℝ) (event : List Particle) :
    ∀ st : LoopState,
      (event.foldl (particleStep rnd pT6) st).sums.nMult = st.sums.nMult + nMultOf event := by
  induction event with
  | nil => intro st; simp [nMultOf]
  | cons part rest ih =>
    intro st
    rw [List.foldl_cons, ih, nMult_particleStep, nMultOf_cons part rest, Nat.add_assoc]

theorem Nch_not_in_loop (event : List Particle) :
    "Nch" ∉ event.flatMap particleFillNames := by
  rw [List.mem_flatMap]
  rintro ⟨part, _, h⟩
  unfold particleFillNames at h
  rw [List.mem_append] at h
  rcases h with h | h
  · split at h
    · revert h; decide
    · simp at h
  · split at h
    · revert h; decide
    · simp at h

/-- The value filled into `Nch` for an event that passes the cut: one `Fill` call, with the
number of entries that are final, have a code other than `13`, and `|eta| < 5`. -/
theorem fillsOf_Nch (rnd : Nat → ℝ) (drawn : Nat) (event : List Particle)
    (hpass : passesYCut (yrec (entry event 4).p (entry event 6).p)) :
    fillsOf "Nch" (analyse rnd drawn event).effects = [[(nMultOf event : ℝ)]] := by
  unfold passesYCut at hpass
  unfold analyse
  simp only []
  rw [if_neg hpass]
  have hloop : fillsOf "Nch"
      (particleLoop rnd (entry event 6).p.pT (drawn + 2) event).effects = [] := by
    apply fillsOf_eq_nil
    unfold particleLoop
    rw [fillNames_particleLoop]
    simpa [fillNames] using Nch_not_in_loop event
  have hkin : fillsOf "Nch" (kinematicFills (entry event 1).p (entry event 4).p
      (entry event 6).p (entry event 6).p) = [] := by
    apply fillsOf_eq_nil
    rw [fillNames_kinematicFills]
    split <;> decide
  have hmu : fillsOf "Nch" (muonSmearEffects (entry event 6).p) = [] := rfl
  have hres : ∀ a b c d e f : ℝ, fillsOf "Nch" (resFills "" a b c d e f) = [] := by
    intro a b c d e f
    apply fillsOf_eq_nil
    rw [fillNames_resFills]
    decide
  have hres3 : ∀ a b c d e f : ℝ, fillsOf "Nch" (resFills3D "" a b c d e f) = [] := by
    intro a b c d e f
    apply fillsOf_eq_nil
    rw [fillNames_resFills3D]
    decide
  have hmuh : ∀ l : List ℝ, fillsOf "Nch" [Effect.fill "petamuhist" l] = [] := by
    intro l
    apply fillsOf_eq_nil
    have hnames : fillNames [Effect.fill "petamuhist" l] = ["petamuhist"] := rfl
    rw [hnames]
    decide
  have hhad : ∀ (a b c : ℝ) (h1 h2 h3 : Hadronic) (n : Nat),
      fillsOf "Nch" (hadronicFills a b c h1 h2 h3 n) = [[(n : ℝ)]] := by
    intro a b c h1 h2 h3 n
    unfold hadronicFills
    have hf : ∀ (sfx : String) (u v w d e f : ℝ), "Nch" ∉ familyNames sfx →
        fillsOf "Nch" (resFills sfx u v w d e f) = [] := by
      intro sfx u v w d e f hn
      exact fillsOf_eq_nil _ _ (by rw [fillNames_resFills]; exact hn)
    have hf3 : ∀ (sfx : String) (u v w d e f : ℝ), "Nch" ∉ family3DNames sfx →
        fillsOf "Nch" (resFills3D sfx u v w d e f) = [] := by
      intro sfx u v w d e f hn
      exact fillsOf_eq_nil _ _ (by rw [fillNames_resFills3D]; exact hn)
    simp only [fillsOf_append]
    rw [hf "JB" _ _ _ _ _ _ (by decide), hf "JB4" _ _ _ _ _ _ (by decide),
      hf "JB5" _ _ _ _ _ _ (by decide), hf "DA" _ _ _ _ _ _ (by decide),
      hf "DA4" _ _ _ _ _ _ (by decide), hf "DA5" _ _ _ _ _ _ (by decide),
      hf "A4" _ _ _ _ _ _ (by decide), hf "A4Eta4" _ _ _ _ _ _ (by decide),
      hf "A4Eta5" _ _ _ _ _ _ (by decide), hf3 "JB5" _ _ _ _ _ _ (by decide),
      hf3 "DA5" _ _ _ _ _ _ (by decide)]
    simp [fillsOf]
  simp only [fillsOf_append, hloop, hkin, hmu, hres, hres3, hmuh, hhad, List.nil_append,
    List.append_nil]
  have hn := nMult_particleLoop rnd (entry event 6).p.pT event ⟨Sums.zero, drawn + 2, []⟩
  unfold particleLoop
  rw [hn]
  simp [Sums.zero]

end MuIC

namespace MuIC

open Real

/-- C13 (the code at a failing input): for the event whose final state is the scattered
muon and two photons, which passes the cut on `yrec`, the single value filled into `Nch`
is `2` (the two neutral photons), while the number of charged final-state particles with
`|eta| < 5` is `1` (the muon), and `0` when the particles of code `13` are left out. -/
theorem Nch_counts_neutral_particles :
    passesYCut (yrec (entry photonEvent 4).p (entry photonEvent 6).p) ∧
    fillsOf "Nch" (analyse (fun _ => 0) 0 photonEvent).effects = [[2]] ∧
    chargedMultiplicity photonEvent = 1 ∧
    chargedHadronicMultiplicity photonEvent = 0 := by
  have hpass : passesYCut (yrec (entry photonEvent 4).p (entry photonEvent 6).p) :=
    passesYCut_small_event
  have hcount : nMultOf photonEvent = 2 := by
    simp [nMultOf, photonEvent, hardProcess, Particle.vacuum, beamProton, muonIn, muonOut,
      photon, Vec4.eta, List.filter]
  refine ⟨hpass, ?_, ?_, ?_⟩
  · rw [fillsOf_Nch _ _ _ hpass, hcount]
    norm_num
  · simp [chargedMultiplicity, photonEvent, hardProcess, Particle.vacuum, beamProton,
      muonIn, muonOut, photon, Vec4.eta, List.filter]
  · simp [chargedHadronicMultiplicity, photonEvent, hardProcess, Particle.vacuum,
      beamProton, muonIn, muonOut, photon, Vec4.eta, List.filter]

end MuIC

namespace MuIC

open Real

/-! ## The calls on the resolution functions -/

theorem resolutionCalls_append (a b : List (Effect ℝ)) :
    resolutionCalls (a ++ b) = resolutionCalls a ++ resolutionCalls b := by
  simp [resolutionCalls, List.filterMap_append]

theorem resolutionCalls_resFills (sfx : String) (a b c d e f : ℝ) :
    resolutionCalls (resFills sfx a b c d e f) = [] := rfl

theorem resolutionCalls_resFills3D (sfx : String) (a b c d e f : ℝ) :
    resolutionCalls (resFills3D sfx a b c d e f) = [] := rfl

theorem resolutionCalls_muonSmearEffects (peOut : Vec4) :
    resolutionCalls (muonSmearEffects peOut) = muonCalls := rfl

theorem resolutionCalls_kinematicFills (pProton peIn peOut p6 : Vec4) :
    resolutionCalls (kinematicFills pProton peIn peOut p6) = [] := by
  unfold kinematicFills
  rw [resolutionCalls_append]
  split <;> rfl

theorem resolutionCalls_hadronicFills (a b c : ℝ) (all eta4 eta5 : Hadronic) (nMult : Nat) :
    resolutionCalls (hadronicFills a b c all eta4 eta5 nMult) = [] := rfl

theorem resolutionCalls_chargedBlock (rnd : Nat → ℝ) (pmass : ℝ) (s : Smear) :
    resolutionCalls (chargedBlock rnd pmass s).effects
      = resolutionCalls s.effects ++ trackCalls := by
  unfold chargedBlock
  simp only [resolutionCalls_append]
  rfl

theorem resolutionCalls_caloBlock (eRes : String) (rnd : Nat → ℝ) (s : Smear) :
    resolutionCalls (caloBlock eRes rnd s).effects
      = resolutionCalls s.effects ++ caloCalls eRes := by
  unfold caloBlock
  simp only [resolutionCalls_append]
  rfl

/-- The calls made by the smearing of one selected particle. -/
theorem resolutionCalls_smearParticle (rnd : Nat → ℝ) (drawn : Nat) (part : Particle) :
    resolutionCalls (smearParticle rnd drawn part).effects
      = (if part.id.natAbs = 211 ∨ part.id.natAbs = 321 ∨ part.id.natAbs = 2212
            ∨ part.id.natAbs = 11 then trackCalls else [])
        ++ (if part.id.natAbs = 22 then caloCalls "emERelResFunc" else [])
        ++ (if part.id.natAbs = 2112 then caloCalls "hadERelResFunc" else []) := by
  unfold smearParticle
  simp only []
  split <;> split <;> split <;>
    simp only [resolutionCalls_chargedBlock, resolutionCalls_caloBlock, List.append_nil,
      List.nil_append, List.append_assoc] <;> rfl

theorem resolutionCalls_particleStep (rnd : Nat → ℝ) (pT6 : ℝ) (st : LoopState)
    (part : Particle) :
    resolutionCalls (particleStep rnd pT6 st part).effects
      = resolutionCalls st.effects ++ particleCalls part := by
  unfold particleStep particleCalls
  simp only []
  have hrad : resolutionCalls
      (if part.statusAbs = 43 then
        [Effect.fill "pTrhist" [part.p.pT], Effect.fill "pTdhist" [part.p.pT / pT6]]
       else []) = [] := by
    split <;> rfl
  by_cases hsel : part.isFinal = true ∧ part.id ≠ 13
  · rw [if_pos hsel, if_pos hsel]
    have hpeta : ∀ l : List ℝ, resolutionCalls [Effect.fill "petahadhist" l] = [] :=
      fun _ => rfl
    simp only [resolutionCalls_append, resolutionCalls_smearParticle, hrad, hpeta,
      List.append_nil, List.nil_append, List.append_assoc]
  · rw [if_neg hsel, if_neg hsel]
    simp only [resolutionCalls_append, hrad, List.append_nil]

theorem resolutionCalls_particleLoop (rnd : Nat → ℝ) (pT6 : ℝ) (event : List Particle) :
    ∀ st : LoopState,
      resolutionCalls (event.foldl (particleStep rnd pT6) st).effects
        = resolutionCalls st.effects ++ event.flatMap particleCalls := by
  induction event with
  | nil => intro st; simp
  | cons part rest ih =>
    intro st
    rw [List.foldl_cons, ih, resolutionCalls_particleStep, List.flatMap_cons,
      List.append_assoc]

/-- The calls on the resolution functions during the analysis of an event that passes the
cut: those of the muon, then those of each entry of the record in turn. -/
theorem resolutionCalls_analyse_pass (rnd : Nat → ℝ) (drawn : Nat) (event : List Particle)
    (hpass : passesYCut (yrec (entry event 4).p (entry event 6).p)) :
    resolutionCalls (analyse rnd drawn event).effects
      = muonCalls ++ event.flatMap particleCalls := by
  unfold passesYCut at hpass
  unfold analyse
  simp only []
  rw [if_neg hpass]
  simp only [resolutionCalls_append, resolutionCalls_muonSmearEffects,
    resolutionCalls_kinematicFills, resolutionCalls_resFills, resolutionCalls_resFills3D,
    resolutionCalls_hadronicFills, particleLoop, resolutionCalls_particleLoop,
    List.append_nil, List.nil_append, List.append_assoc]
  rfl

/-- The calls on the resolution functions during the analysis of an event that the cut
rejects: those of the muon only. -/
theorem resolutionCalls_analyse_reject (rnd : Nat → ℝ) (drawn : Nat)
    (event : List Particle)
    (hrej : ¬ passesYCut (yrec (entry event 4).p (entry event 6).p)) :
    resolutionCalls (analyse rnd drawn event).effects = muonCalls := by
  unfold passesYCut at hrej
  rw [not_not] at hrej
  unfold analyse
  simp only []
  rw [if_pos hrej]
  simp only [resolutionCalls_append, resolutionCalls_muonSmearEffects,
    resolutionCalls_kinematicFills, List.append_nil]

/-- No parameter `[1]` of `chTrkAngleResFunc` is ever set: neither before the loop nor in
the analysis of any event. -/
theorem chTrkAngle_parameter_never_set (rnd : Nat → ℝ) (drawn : Nat)
    (event : List Particle) :
    ("chTrkAngleResFunc", some 1)
      ∉ resolutionCalls (setupEffects ++ (analyse rnd drawn event).effects) := by
  rw [resolutionCalls_append, List.mem_append]
  rintro (h | h)
  · revert h
    unfold setupEffects resolutionCalls
    simp only [List.filterMap_cons, List.filterMap_nil]
    decide
  · by_cases hpass : passesYCut (yrec (entry event 4).p (entry event 6).p)
    · rw [resolutionCalls_analyse_pass rnd drawn event hpass, List.mem_append,
        List.mem_flatMap] at h
      rcases h with h | ⟨part, _, h⟩
      · revert h; decide
      · unfold particleCalls at h
        split at h
        · simp only [List.mem_append] at h
          rcases h with (h | h) | h
          · split at h
            · revert h; decide
            · simp at h
          · split at h
            · revert h; decide
            · simp at h
          · split at h
            · revert h; decide
            · simp at h
        · simp at h
    · rw [resolutionCalls_analyse_reject rnd drawn event hpass] at h
      revert h; decide

end MuIC

namespace MuIC

open Real

/-- C14 (the code at a failing input): a final-state electron (`id = 11`) is selected by
the loop and smeared by the charged-particle block, with draws of `chTrkPRelResFunc` and
`chTrkAngleResFunc`: in the analysis of the event made of the scattered muon and this
electron, `emERelResFunc` and `caloAngleResFunc` are never sampled.  A final-state photon
does go through the electromagnetic-calorimeter block. -/
theorem electron_smeared_as_track :
    (electron.isFinal = true ∧ electron.id ≠ 13 ∧ electron.id.natAbs = 11) ∧
    (∀ (rnd : Nat → ℝ) (drawn : Nat),
      smearParticle rnd drawn electron
        = chargedBlock rnd electron.m
            { pp := electron.p.pAbs, ppx := electron.p.xx, ppy := electron.p.yy,
              ppz := electron.p.zz, pe := electron.p.e, pphi := electron.p.phi,
              peta := electron.p.eta, drawn := drawn, effects := [] }) ∧
    resolutionCalls (analyse (fun _ => 0) 0 electronEvent).effects
      = muonCalls ++ trackCalls ∧
    ("emERelResFunc", none)
      ∉ resolutionCalls (analyse (fun _ => 0) 0 electronEvent).effects ∧
    ("caloAngleResFunc", none)
      ∉ resolutionCalls (analyse (fun _ => 0) 0 electronEvent).effects ∧
    (∀ (rnd : Nat → ℝ) (drawn : Nat),
      smearParticle rnd drawn photon
        = caloBlock "emERelResFunc" rnd
            { pp := photon.p.pAbs, ppx := photon.p.xx, ppy := photon.p.yy,
              ppz := photon.p.zz, pe := photon.p.e, pphi := photon.p.phi,
              peta := photon.p.eta, drawn := drawn, effects := [] }) := by
  have hpass : passesYCut (yrec (entry electronEvent 4).p (entry electronEvent 6).p) :=
    passesYCut_small_event
  have hcalls : resolutionCalls (analyse (fun _ => 0) 0 electronEvent).effects
      = muonCalls ++ trackCalls := by
    rw [resolutionCalls_analyse_pass _ _ _ hpass]
    congr 1
  refine ⟨by decide, ?_, hcalls, ?_, ?_, ?_⟩
  · intro rnd drawn
    have h1 : electron.id.natAbs = 211 ∨ electron.id.natAbs = 321
        ∨ electron.id.natAbs = 2212 ∨ electron.id.natAbs = 11 := by decide
    have h2 : ¬ electron.id.natAbs = 22 := by decide
    have h3 : ¬ electron.id.natAbs = 2112 := by decide
    unfold smearParticle
    simp only []
    rw [if_pos h1, if_neg h2, if_neg h3]
  · rw [hcalls]
    decide
  · rw [hcalls]
    decide
  · intro rnd drawn
    have h1 : ¬ (photon.id.natAbs = 211 ∨ photon.id.natAbs = 321
        ∨ photon.id.natAbs = 2212 ∨ photon.id.natAbs = 11) := by decide
    have h2 : photon.id.natAbs = 22 := by decide
    have h3 : ¬ photon.id.natAbs = 2112 := by decide
    unfold smearParticle
    simp only []
    rw [if_neg h1, if_pos h2, if_neg h3]

/-- C18 (the code at a failing input): the formula of `chTrkAngleResFunc` contains the
parameter `[1]`, and in the analysis of the event made of the scattered muon and one
charged pion `chTrkAngleResFunc` is sampled (twice) although its parameter `[1]` has never
been set, neither before the loop nor during the analysis. -/
theorem chTrkAngle_sampled_unset :
    "chTrkAngleResFunc" ∈ formulaHasParameterOne ∧
    resolutionCalls (analyse (fun _ => 0) 0 pionEvent).effects
      = muonCalls ++ trackCalls ∧
    ("chTrkAngleResFunc", none)
      ∈ resolutionCalls (analyse (fun _ => 0) 0 pionEvent).effects ∧
    ("chTrkAngleResFunc", some 1)
      ∉ resolutionCalls (setupEffects ++ (analyse (fun _ => 0) 0 pionEvent).effects) := by
  have hpass : passesYCut (yrec (entry pionEvent 4).p (entry pionEvent 6).p) :=
    passesYCut_small_event
  have hcalls : resolutionCalls (analyse (fun _ => 0) 0 pionEvent).effects
      = muonCalls ++ trackCalls := by
    rw [resolutionCalls_analyse_pass _ _ _ hpass]
    congr 1
  refine ⟨by decide, hcalls, ?_, chTrkAngle_parameter_never_set _ _ _⟩
  rw [hcalls]
  decide

end MuIC

namespace MuIC

open Real

/-! ## The values filled into `petamuhist` and `petahadhist` -/

theorem fillsOf_singleton_self (hist : String) (args : List ℝ) :
    fillsOf hist [Effect.fill hist args] = [args] := by
  simp [fillsOf]

theorem fillsOf_smearParticle (hist : String) (rnd : Nat → ℝ) (drawn : Nat)
    (part : Particle) : fillsOf hist (smearParticle rnd drawn part).effects = [] := by
  apply fillsOf_eq_nil
  rw [fillNames_smearParticle]
  exact List.not_mem_nil _

theorem fillsOf_petahad_particleStep (rnd : Nat → ℝ) (pT6 : ℝ) (st : LoopState)
    (part : Particle) :
    fillsOf "petahadhist" (particleStep rnd pT6 st part).effects
      = fillsOf "petahadhist" st.effects
        ++ (if part.isFinal = true ∧ part.id ≠ 13 then
              [[part.p.eta, part.p.pT * Real.cosh part.p.eta]] else []) := by
  unfold particleStep
  simp only []
  have hrad : fillsOf "petahadhist"
      (if part.statusAbs = 43 then
        [Effect.fill "pTrhist" [part.p.pT], Effect.fill "pTdhist" [part.p.pT / pT6]]
       else []) = [] := by
    apply fillsOf_eq_nil
    split
    · have hn : fillNames
          [Effect.fill "pTrhist" [part.p.pT], Effect.fill "pTdhist" [part.p.pT / pT6]]
          = ["pTrhist", "pTdhist"] := rfl
      rw [hn]
      decide
    · exact List.not_mem_nil _
  by_cases hsel : part.isFinal = true ∧ part.id ≠ 13
  · rw [if_pos hsel, if_pos hsel]
    simp only [fillsOf_append, hrad, fillsOf_smearParticle, fillsOf_singleton_self,
      List.append_nil, petaFillY]
  · rw [if_neg hsel, if_neg hsel]
    simp only [fillsOf_append, hrad, List.append_nil]

theorem fillsOf_petahad_particleLoop (rnd : Nat → ℝ) (pT6 : ℝ) (event : List Particle) :
    ∀ st : LoopState,
      fillsOf "petahadhist" (event.foldl (particleStep rnd pT6) st).effects
        = fillsOf "petahadhist" st.effects
          ++ (event.filter (fun part => decide (part.isFinal = true ∧ part.id ≠ 13))).map
              (fun part => [part.p.eta, part.p.pT * Real.cosh part.p.eta]) := by
  induction event with
  | nil => intro st; simp
  | cons part rest ih =>
    intro st
    rw [List.foldl_cons, ih, fillsOf_petahad_particleStep, List.append_assoc]
    congr 1
    by_cases hsel : part.isFinal = true ∧ part.id ≠ 13
    · rw [if_pos hsel, List.filter_cons_of_pos (by simpa using hsel)]
      rfl
    · rw [if_neg hsel, List.filter_cons_of_neg (by simpa using hsel)]
      rfl

theorem fillsOf_resFills_other (hist sfx : String) (a b c d e f : ℝ)
    (hn : hist ∉ familyNames sfx) : fillsOf hist (resFills sfx a b c d e f) = [] :=
  fillsOf_eq_nil _ _ (by rw [fillNames_resFills]; exact hn)

theorem fillsOf_resFills3D_other (hist sfx : String) (a b c d e f : ℝ)
    (hn : hist ∉ family3DNames sfx) : fillsOf hist (resFills3D sfx a b c d e f) = [] :=
  fillsOf_eq_nil _ _ (by rw [fillNames_resFills3D]; exact hn)

theorem fillsOf_hadronicFills_other (hist : String) (a b c : ℝ) (h1 h2 h3 : Hadronic)
    (n : Nat) (hn : hist ∉ hadronicFillNames) :
    fillsOf hist (hadronicFills a b c h1 h2 h3 n) = [] :=
  fillsOf_eq_nil _ _ (by rw [fillNames_hadronicFills]; exact hn)

theorem fillsOf_kinematicFills_other (hist : String) (pProton peIn peOut p6 : Vec4)
    (hn : hist ∉ ["Qhist", "Whist", "xhist", "yhist", "pTehist", "Q2xhist", "Q2xhist_eta"]) :
    fillsOf hist (kinematicFills pProton peIn peOut p6) = [] := by
  apply fillsOf_eq_nil
  rw [fillNames_kinematicFills]
  intro hmem
  apply hn
  rw [List.mem_append] at hmem
  rcases hmem with h | h
  · simp only [List.mem_cons, List.mem_singleton, List.not_mem_nil, or_false] at h ⊢
    tauto
  · split at h
    · simp only [List.mem_singleton] at h
      subst h
      simp
    · simp at h

theorem petamuhist_not_in_loop (event : List Particle) :
    "petamuhist" ∉ event.flatMap particleFillNames := by
  rw [List.mem_flatMap]
  rintro ⟨part, _, h⟩
  unfold particleFillNames at h
  rw [List.mem_append] at h
  rcases h with h | h
  · split at h
    · revert h; decide
    · simp at h
  · split at h
    · revert h; decide
    · simp at h

/-- The one value filled into `petamuhist` for an event that passes the cut. -/
theorem fillsOf_petamuhist (rnd : Nat → ℝ) (drawn : Nat) (event : List Particle)
    (hpass : passesYCut (yrec (entry event 4).p (entry event 6).p)) :
    fillsOf "petamuhist" (analyse rnd drawn event).effects
      = [[(entry event 6).p.eta,
          (entry event 6).p.pT * Real.cosh (entry event 6).p.eta]] := by
  unfold passesYCut at hpass
  unfold analyse
  simp only []
  rw [if_neg hpass]
  have hloop : fillsOf "petamuhist"
      (particleLoop rnd (entry event 6).p.pT (drawn + 2) event).effects = [] := by
    apply fillsOf_eq_nil
    unfold particleLoop
    rw [fillNames_particleLoop]
    simpa [fillNames] using petamuhist_not_in_loop event
  have hmu : fillsOf "petamuhist" (muonSmearEffects (entry event 6).p) = [] := rfl
  simp only [fillsOf_append, hloop, hmu,
    fillsOf_kinematicFills_other "petamuhist" _ _ _ _ (by decide),
    fillsOf_resFills_other "petamuhist" "" _ _ _ _ _ _ (by decide),
    fillsOf_resFills3D_other "petamuhist" "" _ _ _ _ _ _ (by decide),
    fillsOf_hadronicFills_other "petamuhist" _ _ _ _ _ _ _ (by decide),
    fillsOf_singleton_self, List.nil_append, List.append_nil, petaFillY]

/-- The values filled into `petahadhist` for an event that passes the cut: one `Fill` call
for each entry of the record that is final with a code other than `13`, in order. -/
theorem fillsOf_petahadhist (rnd : Nat → ℝ) (drawn : Nat) (event : List Particle)
    (hpass : passesYCut (yrec (entry event 4).p (entry event 6).p)) :
    fillsOf "petahadhist" (analyse rnd drawn event).effects
      = (event.filter (fun part => decide (part.isFinal = true ∧ part.id ≠ 13))).map
          (fun part => [part.p.eta, part.p.pT * Real.cosh part.p.eta]) := by
  unfold passesYCut at hpass
  unfold analyse
  simp only []
  rw [if_neg hpass]
  have hmu : fillsOf "petahadhist" (muonSmearEffects (entry event 6).p) = [] := rfl
  have hmuh : ∀ l : List ℝ, fillsOf "petahadhist" [Effect.fill "petamuhist" l] = [] := by
    intro l
    apply fillsOf_eq_nil
    have hnames : fillNames [Effect.fill "petamuhist" l] = ["petamuhist"] := rfl
    rw [hnames]
    decide
  have hloop := fillsOf_petahad_particleLoop rnd (entry event 6).p.pT event
    ⟨Sums.zero, drawn + 2, []⟩
  have hnil : fillsOf "petahadhist" ([] : List (Effect ℝ)) = [] := rfl
  rw [hnil, List.nil_append] at hloop
  simp only [fillsOf_append, hmu, hmuh, particleLoop, hloop,
    fillsOf_kinematicFills_other "petahadhist" _ _ _ _ (by decide),
    fillsOf_resFills_other "petahadhist" "" _ _ _ _ _ _ (by decide),
    fillsOf_resFills3D_other "petahadhist" "" _ _ _ _ _ _ (by decide),
    fillsOf_hadronicFills_other "petahadhist" _ _ _ _ _ _ _ (by decide),
    List.nil_append, List.append_nil]

/-- C15: the second argument filled into `petamuhist` and `petahadhist` is the magnitude
of the momentum.  In the analysis of an event that passes the cut, `petamuhist` receives
one `Fill(eta, pT cosh(eta))` for the scattered muon and `petahadhist` one
`Fill(eta, pT cosh(eta))` for every selected particle, in order; and for every momentum
`(px, py, pz)` with `pT = sqrt(px^2 + py^2) > 0` and `eta = asinh(pz / pT)` this second
argument is `sqrt(px^2 + py^2 + pz^2)`. -/
theorem peta_fill_is_momentum (rnd : Nat → ℝ) (drawn : Nat) (event : List Particle)
    (hpass : passesYCut (yrec (entry event 4).p (entry event 6).p)) :
    fillsOf "petamuhist" (analyse rnd drawn event).effects
      = [[(entry event 6).p.eta,
          (entry event 6).p.pT * Real.cosh (entry event 6).p.eta]] ∧
    fillsOf "petahadhist" (analyse rnd drawn event).effects
      = (event.filter (fun part => decide (part.isFinal = true ∧ part.id ≠ 13))).map
          (fun part => [part.p.eta, part.p.pT * Real.cosh part.p.eta]) ∧
    (∀ v : Vec4, 0 < Real.sqrt (v.xx ^ 2 + v.yy ^ 2) →
      v.pT * Real.cosh v.eta = Real.sqrt (v.xx ^ 2 + v.yy ^ 2 + v.zz ^ 2)) ∧
    (∀ px py pz : ℝ, 0 < Real.sqrt (px ^ 2 + py ^ 2) →
      Real.sqrt (px ^ 2 + py ^ 2) * cosh (arsinh (pz / Real.sqrt (px ^ 2 + py ^ 2)))
        = Real.sqrt (px ^ 2 + py ^ 2 + pz ^ 2)) := by
  refine ⟨fillsOf_petamuhist rnd drawn event hpass,
    fillsOf_petahadhist rnd drawn event hpass, ?_, ?_⟩
  · intro v hv
    have h := (pT_cosh_eta_eq_pAbs v.xx v.yy v.zz v.tt hv).2.1
    simpa [petaFillY] using h
  · intro px py pz h
    exact (pT_cosh_eta_eq_pAbs px py pz 0 h).1

/-- Witness of C15: the event made of the scattered muon and one charged pion, which passes
the cut. -/
theorem peta_fill_is_momentum_witness :
    passesYCut (yrec (entry pionEvent 4).p (entry pionEvent 6).p) ∧
    (fillsOf "petamuhist" (analyse (fun _ => 0) 0 pionEvent).effects
      = [[(entry pionEvent 6).p.eta,
          (entry pionEvent 6).p.pT * Real.cosh (entry pionEvent 6).p.eta]] ∧
    fillsOf "petahadhist" (analyse (fun _ => 0) 0 pionEvent).effects
      = (pionEvent.filter (fun part => decide (part.isFinal = true ∧ part.id ≠ 13))).map
          (fun part => [part.p.eta, part.p.pT * Real.cosh part.p.eta]) ∧
    (∀ v : Vec4, 0 < Real.sqrt (v.xx ^ 2 + v.yy ^ 2) →
      v.pT * Real.cosh v.eta = Real.sqrt (v.xx ^ 2 + v.yy ^ 2 + v.zz ^ 2)) ∧
    (∀ px py pz : ℝ, 0 < Real.sqrt (px ^ 2 + py ^ 2) →
      Real.sqrt (px ^ 2 + py ^ 2) * cosh (arsinh (pz / Real.sqrt (px ^ 2 + py ^ 2)))
        = Real.sqrt (px ^ 2 + py ^ 2 + pz ^ 2))) :=
  ⟨passesYCut_small_event,
    peta_fill_is_momentum (fun _ => 0) 0 pionEvent passesYCut_small_event⟩

end MuIC
